import Mathlib

/-!
Verification development for the CM compiler front end.

The development shallowly embeds the two subsystems of the repository:

* the hand-written scanner of `Lexical/lexical.py` (`Scanner`, its
  `get_next_token` state machine, the symbol table, the lexical-error list
  and the retroactive-invalidation signal consumed by `main()`), and
* the scanner and predictive recursive-descent parser of
  `Scanner/compiler.py` (`scan`, `Parser` and its grammar procedures).

Sources are modelled as lists of characters read as ASCII (the spec fixes
byte-wise ASCII classification, so Python's `str.isalpha`/`isdigit` are
embedded as their ASCII restrictions).  Python loops that consume input are
embedded either as pure list computations (`takeWhile`-shaped loops) or as
fuel-indexed recursions together with fuel-sufficiency lemmas, so that every
definition is executable by the kernel.
-/

/-- Token kinds: the `TokenType` class of both source files. -/
inductive TokType
  | KEYWORD | ID | NUM | SYMBOL | EOF | ERROR
deriving DecidableEq

/-- One symbol-table entry: lexeme -> \x7bclass, first_seen\x7d of `lexical.py`. -/
structure SymEntry where
  lexeme : String
  cls : TokType
  first_seen : Option Nat
deriving DecidableEq

/-- The `last_token` quadruple `(toktype, lexeme, end_pos, lineno)` of `Scanner`. -/
structure LastTok where
  ttype : TokType
  lexeme : String
  end_pos : Nat
  line : Nat
deriving DecidableEq

/-- A token as returned by `Scanner.get_next_token`: `(toktype, lexeme, lineno)`. -/
structure LToken where
  ttype : TokType
  lexeme : String
  line : Nat
deriving DecidableEq

/-- The mutable state of `Scanner` in `lexical.py`: source, position, line
counter, error list, symbol table, `last_token`, and the latched retraction
signal `_remove_last_token` / `_removed_last_token_lexeme` /
`_removed_last_token_lineno` (combined into one `Option`). -/
structure ScanState where
  src : List Char
  pos : Nat
  lineno : Nat
  lex_errors : List (Nat × String × String)
  symbol_table : List SymEntry
  last_token : Option LastTok
  remove_flag : Option (String × Nat)
deriving DecidableEq

/-- Whitespace set of `lexical.py` (`' '`, `'\n'`, `'\r'`, `'\t'`, `'\v'`, `'\f'`). -/
def isWs (c : Char) : Bool :=
  c = ' ' || c = '\n' || c = '\r' || c = '\t' || c = Char.ofNat 11 || c = Char.ofNat 12

/-- ASCII restriction of Python's `str.isalpha`. -/
def isAsciiAlpha (c : Char) : Bool :=
  (decide ('A' ≤ c) && decide (c ≤ 'Z')) || (decide ('a' ≤ c) && decide (c ≤ 'z'))

/-- ASCII restriction of Python's `str.isdigit`. -/
def isDigitC (c : Char) : Bool := decide ('0' ≤ c) && decide (c ≤ '9')

/-- Characters of identifier continuation: `isalnum() or '_'`. -/
def isIdentChar (c : Char) : Bool := isAsciiAlpha c || isDigitC c || c = '_'

/-- The single characters occurring in the `SYMBOLS` set. -/
def symbol_chars : List Char :=
  [';', ':', ',', '[', ']', '(', ')', Char.ofNat 123, Char.ofNat 125,
   '+', '-', '*', '/', '=', '<']

/-- Membership of a single character in the `SYMBOLS` set. -/
def isSymbolChar (c : Char) : Bool := c ∈ symbol_chars

/-- The `KEYWORDS` set of `lexical.py`. -/
def KEYWORDS : List String := ["if", "else", "void", "int", "for", "break", "return"]

/-- `sorted(KEYWORDS)` as used by `_initialize_symbol_table_with_keywords`. -/
def keywords_sorted : List String := ["break", "else", "for", "if", "int", "return", "void"]

/-- `Scanner._is_token_start` (the `None` case is handled at call sites). -/
def is_token_start (c : Char) : Bool :=
  isWs c || isAsciiAlpha c || isDigitC c || c = '_' || isSymbolChar c || c = '/' || c = '*'

/-- `Scanner.peek(offset)`. -/
def ScanState.peek (s : ScanState) (off : Nat) : Option Char := s.src.get? (s.pos + off)

/-- A `self.peek() is not None and p(self.peek())` test. -/
def peek_sat (s : ScanState) (off : Nat) (p : Char → Bool) : Bool :=
  match s.peek off with
  | some ch => p ch
  | none => false

/-- `Scanner.advance()`: consume one character, bumping `lineno` on `'\n'`;
out of range it is a no-op (Python returns `None` without moving). -/
def ScanState.advance (s : ScanState) : ScanState :=
  match s.src.get? s.pos with
  | some c => { s with pos := s.pos + 1, lineno := if c = '\n' then s.lineno + 1 else s.lineno }
  | none => s

/-- Iterated `advance`. -/
def advanceN (s : ScanState) : Nat → ScanState
  | 0 => s
  | n + 1 => advanceN s.advance n

/-- A `while self.peek() ... : self.advance()` loop consuming characters while
`p` holds: the consumed characters are the maximal `p`-satisfying run at the
current position, and the state advances over exactly that run. -/
def consume_while (p : Char → Bool) (s : ScanState) : List Char × ScanState :=
  ((s.src.drop s.pos).takeWhile p, advanceN s ((s.src.drop s.pos).takeWhile p).length)

/-- Offset of the first `*/` in a character list (the block-comment close
scan of `get_next_token`). -/
def find_close : List Char → Option Nat
  | c1 :: c2 :: rest =>
    if c1 = '*' && c2 = '/' then some 0 else (find_close (c2 :: rest)).map (· + 1)
  | _ => none

/-- `Scanner.log_error`. -/
def log_error (s : ScanState) (ln : Nat) (thrown msg : String) : ScanState :=
  { s with lex_errors := s.lex_errors ++ [(ln, thrown, msg)] }

/-- `self.lex_errors[-1] = (...)`: replace the most recent error record. -/
def set_last_error (s : ScanState) (ln : Nat) (thrown msg : String) : ScanState :=
  { s with lex_errors := s.lex_errors.dropLast ++ [(ln, thrown, msg)] }

/-- Key lookup in the symbol table (`lexeme in self.symbol_table`). -/
def lookup_sym (t : List SymEntry) (lex : String) : Option SymEntry :=
  t.find? (fun e => e.lexeme == lex)

/-- `Scanner.add_symbol`. -/
def add_symbol (s : ScanState) (lex : String) (cls : TokType) (fs : Option Nat) : ScanState :=
  match lookup_sym s.symbol_table lex with
  | some e =>
    if e.cls = TokType.ID ∧ e.first_seen = none ∧ fs ≠ none then
      { s with symbol_table :=
          s.symbol_table.map (fun e2 => if e2.lexeme == lex then { e2 with first_seen := fs } else e2) }
    else s
  | none => { s with symbol_table := s.symbol_table ++ [⟨lex, cls, fs⟩] }

/-- `Scanner.remove_id_from_symbol_table_if_present`: delete the entry for
`lex` when its class is `ID` (keys are unique, so filtering is deletion). -/
def remove_id_from_symbol_table_if_present (s : ScanState) (lex : String) : ScanState :=
  { s with symbol_table := s.symbol_table.filter (fun e => !(e.lexeme == lex && e.cls == TokType.ID)) }

/-- `Scanner._panic_consume_until_token_start`. -/
def panic_consume_until_token_start (s : ScanState) : List Char × ScanState :=
  consume_while (fun c => !(is_token_start c)) s

/-- The backward scan of the illegal-character protocol: the maximal
identifier-shaped run immediately left of `start_pos`. -/
def left_ident_part (src : List Char) (start_pos : Nat) : List Char :=
  ((src.take start_pos).reverse.takeWhile isIdentChar).reverse

/-- Result of one iteration of the `while` loop in `get_next_token`: either a
token is returned (`emit`) or the loop continues / the function recurses
(`again`). -/
inductive StepRes
  | emit (t : LToken) (s : ScanState)
  | again (s : ScanState)

/-- The state carried by a `StepRes`. -/
def StepRes.st : StepRes → ScanState
  | .emit _ s => s
  | .again s => s

/-- The stray `*/` branch of `get_next_token`. -/
def stray_step (s : ScanState) : StepRes :=
  .again { log_error s.advance.advance s.lineno "*/" "Stray closing comment" with
           last_token := none }

/-- The `/` branch of `get_next_token`: line comment, block comment (closed
or open at EOF), or division symbol. -/
def slash_step (s : ScanState) : StepRes :=
  if s.peek 1 = some '/' then
    let r := consume_while (fun ch => !(ch = '\n' || ch = Char.ofNat 12)) s.advance.advance
    .again { r.2 with last_token := none }
  else if s.peek 1 = some '*' then
    let s1 := s.advance.advance
    match find_close (s1.src.drop s1.pos) with
    | some k => .again { advanceN s1 (k + 2) with last_token := none }
    | none =>
      let s3 := log_error (advanceN s1 (s1.src.length - s1.pos)) s1.lineno
                  "/* Unclosed ..." "Open comment at EOF"
      .emit ⟨TokType.EOF, "EOF", s3.lineno⟩ { s3 with last_token := none }
  else
    let s1 := s.advance
    .emit ⟨TokType.SYMBOL, "/", s1.lineno⟩
          { s1 with last_token := some ⟨TokType.SYMBOL, "/", s1.pos, s1.lineno⟩ }

/-- The identifier/keyword branch of `get_next_token`. -/
def ident_step (s : ScanState) : StepRes :=
  let start_ln := s.lineno
  let r := consume_while isIdentChar s
  let lexeme := String.mk r.1
  if lexeme ∈ KEYWORDS then
    let s2 := add_symbol r.2 lexeme TokType.KEYWORD none
    .emit ⟨TokType.KEYWORD, lexeme, start_ln⟩
          { s2 with last_token := some ⟨TokType.KEYWORD, lexeme, s2.pos, start_ln⟩ }
  else
    let s2 := add_symbol r.2 lexeme TokType.ID (some start_ln)
    .emit ⟨TokType.ID, lexeme, start_ln⟩
          { s2 with last_token := some ⟨TokType.ID, lexeme, s2.pos, start_ln⟩ }

/-- The malformed-number error path shared by the two number error
sub-cases: log, panic-consume, extend the recorded thrown text. -/
def bad_number_step (s : ScanState) (start_line : Nat) (thrown : String) : StepRes :=
  let s2 := log_error s start_line thrown "Malformed number"
  let pr := panic_consume_until_token_start s2
  let s3 := if pr.1 = [] then pr.2
            else set_last_error pr.2 start_line (thrown ++ String.mk pr.1) "Malformed number"
  .again { s3 with last_token := none }

/-- The number branch of `get_next_token`: leading-zero error,
letter-after-digits error, or a NUM token. -/
def number_step (s : ScanState) (c : Char) : StepRes :=
  let start_line := s.lineno
  let s1 := s.advance
  if c = '0' && peek_sat s1 0 isDigitC then
    let r := consume_while isIdentChar s1
    bad_number_step r.2 start_line (String.mk (c :: r.1))
  else
    let rd := consume_while isDigitC s1
    let lexeme := String.mk (c :: rd.1)
    if peek_sat rd.2 0 (fun ch => isAsciiAlpha ch || ch = '_') then
      let r := consume_while isIdentChar rd.2
      bad_number_step r.2 start_line (lexeme ++ String.mk r.1)
    else
      .emit ⟨TokType.NUM, lexeme, start_line⟩
            { rd.2 with last_token := some ⟨TokType.NUM, lexeme, rd.2.pos, start_line⟩ }

/-- The `=` / `==` branch of `get_next_token`. -/
def eq_step (s : ScanState) : StepRes :=
  if s.peek 1 = some '=' then
    let s1 := s.advance.advance
    .emit ⟨TokType.SYMBOL, "==", s1.lineno⟩
          { s1 with last_token := some ⟨TokType.SYMBOL, "==", s1.pos, s1.lineno⟩ }
  else
    let s1 := s.advance
    .emit ⟨TokType.SYMBOL, "=", s1.lineno⟩
          { s1 with last_token := some ⟨TokType.SYMBOL, "=", s1.pos, s1.lineno⟩ }

/-- The single-character symbol branch of `get_next_token`. -/
def sym_step (s : ScanState) (c : Char) : StepRes :=
  let s1 := s.advance
  .emit ⟨TokType.SYMBOL, String.mk [c], s1.lineno⟩
        { s1 with last_token := some ⟨TokType.SYMBOL, String.mk [c], s1.pos, s1.lineno⟩ }

/-- Tail of the illegal-character protocol: log the error, panic-consume,
and extend the recorded thrown text with the panic-consumed characters. -/
def illegal_log_step (s2 : ScanState) (start_ln : Nat) (thrown : String) : StepRes :=
  let s3 := log_error s2 start_ln thrown "Illegal character"
  let pr := panic_consume_until_token_start s3
  let s4 := if pr.1 = [] then pr.2
            else set_last_error pr.2 start_ln (thrown ++ String.mk pr.1) "Illegal character"
  .again { s4 with last_token := none }

/-- The adjacency test of the illegal-character protocol: the previously
returned token is an ID ending exactly at the illegal character's position
whose lexeme equals the left context. -/
def adj_check (lt? : Option LastTok) (start_pos : Nat) (left : List Char) :
    Option (String × Nat) :=
  match lt? with
  | some lt =>
    if lt.ttype = TokType.ID ∧ lt.end_pos = start_pos ∧ left ≠ [] ∧ lt.lexeme = String.mk left
    then some (lt.lexeme, lt.line) else none
  | none => none

/-- The illegal-character protocol of `get_next_token` (section 6 of the
source): build the thrown text from the left and right identifier-shaped
context, check adjacency with the previously returned token, latch the
retraction signal and remove the identifier from the symbol table when
adjacent, then log and panic-consume. -/
def illegal_step (s : ScanState) (c : Char) : StepRes :=
  let start_ln := s.lineno
  let start_pos := s.pos
  let left := left_ident_part s.src start_pos
  let r := consume_while isIdentChar s.advance
  let thrown := String.mk (left ++ c :: r.1)
  let s2 :=
    match adj_check s.last_token start_pos left with
    | some la => remove_id_from_symbol_table_if_present { r.2 with remove_flag := some la } la.1
    | none => r.2
  illegal_log_step s2 start_ln thrown

/-- One iteration of the body of `Scanner.get_next_token`'s `while` loop, for
current character `c = src[pos]`.  Branches in source order: stray `*/`,
whitespace, `/` (line comment, block comment, division), identifier/keyword,
number (leading zero and letter-after-digits errors), `=`/`==`, other symbols,
and the illegal-character protocol with retroactive identifier invalidation. -/
def step (s : ScanState) (c : Char) : StepRes :=
  if c = '*' ∧ s.peek 1 = some '/' then stray_step s
  else if isWs c then .again s.advance
  else if c = '/' then slash_step s
  else if isAsciiAlpha c || c = '_' then ident_step s
  else if isDigitC c then number_step s c
  else if c = '=' then eq_step s
  else if isSymbolChar c then sym_step s c
  else illegal_step s c

/-- `Scanner.get_next_token`, fuel-indexed: the `while` loop and the tail
recursions after error recovery both show up as the `again` case.  `none`
means the fuel ran out (fuel `src.length - pos + 1` always suffices, proved
below). -/
def get_next_token_fuel : Nat → ScanState → Option (LToken × ScanState)
  | 0, _ => none
  | fuel + 1, s =>
    match s.src.get? s.pos with
    | some c =>
      match step s c with
      | .emit t s' => some (t, s')
      | .again s' => get_next_token_fuel fuel s'
    | none => some (⟨TokType.EOF, "EOF", s.lineno⟩, { s with last_token := none })

/-- `Scanner.get_next_token` as a total function (the default branch is never
taken: see `get_next_token_fuel_isSome`). -/
def get_next_token (s : ScanState) : LToken × ScanState :=
  (get_next_token_fuel (s.src.length - s.pos + 1) s).getD
    (⟨TokType.EOF, "EOF", s.lineno⟩, { s with last_token := none })

/-- `Scanner.__init__`: position 0, line 1, no errors, symbol table
pre-populated with the keywords in sorted order, no `last_token`, retraction
signal clear. -/
def init_state (src : List Char) : ScanState :=
  ⟨src, 0, 1, [], keywords_sorted.map (fun kw => ⟨kw, TokType.KEYWORD, none⟩), none, none⟩

/-- Delete the first occurrence of `x` from `l`. -/
def remove_first (l : List (TokType × String)) (x : TokType × String) :
    List (TokType × String) :=
  match l with
  | [] => []
  | a :: rest => if a = x then rest else a :: remove_first rest x

/-- The backwards scan of `main()` deleting the most recent `(ID, lex)`
occurrence from a line's token list. -/
def remove_recent (l : List (TokType × String)) (lex : String) : List (TokType × String) :=
  (remove_first l.reverse (TokType.ID, lex)).reverse

/-- `main()`'s grouped accumulator `lines_output`, as an association list in
key-insertion order. -/
abbrev LinesOut := List (Nat × List (TokType × String))

/-- `lineno in lines_output`. -/
def lines_has (lines : LinesOut) (ln : Nat) : Bool :=
  (lines.find? (fun p => p.1 == ln)).isSome

/-- The retraction step of `main()`: remove the most recent `(ID, lex)` from
line `ln` if present, dropping the line when it becomes empty. -/
def retract_from_lines (lines : LinesOut) (ln : Nat) (lex : String) : LinesOut :=
  match lines.find? (fun p => p.1 == ln) with
  | none => lines
  | some p =>
    if (TokType.ID, lex) ∈ p.2 then
      if remove_recent p.2 lex = [] then lines.filter (fun q => !(q.1 == ln))
      else lines.map (fun q => if q.1 == ln then (q.1, remove_recent p.2 lex) else q)
    else lines

/-- `lines_output[lineno].append(token_repr)` incl. creating the line. -/
def append_tok (lines : LinesOut) (ln : Nat) (tk : TokType × String) : LinesOut :=
  if lines_has lines ln then
    lines.map (fun q => if q.1 == ln then (q.1, q.2 ++ [tk]) else q)
  else lines ++ [(ln, [tk])]

/-- The observable result of `main()`'s scanning loop: the grouped token
output, the sequence of performed retractions (observation of each processing
of the `_remove_last_token` signal), the lexical-error list, and the final
symbol table. -/
structure RunRes where
  lines : LinesOut
  retractions : List (String × Nat)
  errors : List (Nat × String × String)
  symtab : List SymEntry
deriving DecidableEq

/-- The `while True` token loop of `main()` in `lexical.py`, fuel-indexed:
request the next token, honour the latched retraction signal, stop at EOF,
otherwise group the token under its line. -/
def run_fuel : Nat → ScanState → LinesOut → List (String × Nat) → Option RunRes
  | 0, _, _, _ => none
  | fuel + 1, s, lines, retr =>
    let r := get_next_token s
    match r.2.remove_flag with
    | some la =>
      let lines1 := retract_from_lines lines la.2 la.1
      let s2 := { r.2 with remove_flag := none }
      if r.1.ttype = TokType.EOF then
        some ⟨lines1, retr ++ [la], s2.lex_errors, s2.symbol_table⟩
      else
        run_fuel fuel s2 (append_tok lines1 r.1.line (r.1.ttype, r.1.lexeme)) (retr ++ [la])
    | none =>
      if r.1.ttype = TokType.EOF then
        some ⟨lines, retr, r.2.lex_errors, r.2.symbol_table⟩
      else
        run_fuel fuel r.2 (append_tok lines r.1.line (r.1.ttype, r.1.lexeme)) retr

/-- The complete scanner run of `main()` on a source (the default is never
taken: see `run_fuel_isSome`). -/
def run_scanner (src : List Char) : RunRes :=
  (run_fuel (src.length + 1) (init_state src) [] []).getD ⟨[], [], [], []⟩

/-- All grouped tokens of the final output, in line order then emission order. -/
def all_toks (lines : LinesOut) : List (TokType × String) :=
  (lines.map Prod.snd).flatten

/-- Lexemes of the ID tokens that remain in the grouped output. -/
def emitted_id_lexemes (r : RunRes) : List String :=
  (all_toks r.lines).filterMap (fun p => if p.1 = TokType.ID then some p.2 else none)

/-- Lexemes present in the final symbol table. -/
def symtab_lexemes (r : RunRes) : List String := r.symtab.map SymEntry.lexeme

/-- Lexeme/class pairs of a symbol table. -/
def sym_pairs (t : List SymEntry) : List (String × TokType) :=
  t.map (fun e => (e.lexeme, e.cls))

/-! ## The scanner and parser of `Scanner/compiler.py` -/

/-- A `Token` of `compiler.py`: type, lexeme, line, column. -/
structure PToken where
  ttype : TokType
  lexeme : String
  line : Nat
  col : Nat
deriving DecidableEq

/-- Line/column bookkeeping over a consumed character span (`\n` resets
the column to 1 and bumps the line, anything else bumps the column). -/
def advanceLC : Nat × Nat → List Char → Nat × Nat
  | lc, [] => lc
  | (line, col), ch :: cs =>
    if ch = '\n' then advanceLC (line + 1, 1) cs else advanceLC (line, col + 1) cs

/-- The `scan` function of `compiler.py`, fuel-indexed over outer loop
iterations.  Branch order as in the source: whitespace, `/* ... */` comments,
numbers (digit runs), identifiers/keywords, `==`, single-character symbols,
and unknown characters which become `ERROR` tokens; a final `EOF` token with
lexeme `$` is appended. -/
def scan_fuel : Nat → List Char → Nat → Nat → Nat → Option (List PToken)
  | 0, _, _, _, _ => none
  | fuel + 1, src, i, line, col =>
    match src.get? i with
    | none => some [⟨TokType.EOF, "$", line, col⟩]
    | some ch =>
      if isWs ch then
        if ch = '\n' then scan_fuel fuel src (i + 1) (line + 1) 1
        else scan_fuel fuel src (i + 1) line (col + 1)
      else if ch = '/' && src.get? (i + 1) = some '*' then
        match find_close (src.drop (i + 2)) with
        | some k =>
          let lc := advanceLC (line, col + 2) ((src.drop (i + 2)).take k)
          scan_fuel fuel src (i + 2 + k + 2) lc.1 (lc.2 + 2)
        | none =>
          let lc := advanceLC (line, col + 2) (src.drop (i + 2))
          scan_fuel fuel src src.length lc.1 lc.2
      else if isDigitC ch then
        let ds := (src.drop i).takeWhile isDigitC
        (scan_fuel fuel src (i + ds.length) line (col + ds.length)).map
          (⟨TokType.NUM, String.mk ds, line, col⟩ :: ·)
      else if isAsciiAlpha ch || ch = '_' then
        let ds := (src.drop i).takeWhile isIdentChar
        let typ := if String.mk ds ∈ KEYWORDS then TokType.KEYWORD else TokType.ID
        (scan_fuel fuel src (i + ds.length) line (col + ds.length)).map
          (⟨typ, String.mk ds, line, col⟩ :: ·)
      else if ch = '=' && src.get? (i + 1) = some '=' then
        (scan_fuel fuel src (i + 2) line (col + 2)).map
          (⟨TokType.SYMBOL, "==", line, col⟩ :: ·)
      else if isSymbolChar ch then
        (scan_fuel fuel src (i + 1) line (col + 1)).map
          (⟨TokType.SYMBOL, String.mk [ch], line, col⟩ :: ·)
      else
        (scan_fuel fuel src (i + 1) line (col + 1)).map
          (⟨TokType.ERROR, String.mk [ch], line, col⟩ :: ·)

/-- `scan(source)` (the default is never taken: see `scan_fuel_isSome`). -/
def scan (src : List Char) : List PToken :=
  (scan_fuel (src.length + 1) src 0 1 1).getD [⟨TokType.EOF, "$", 1, 1⟩]

/-- A parse-tree `Node`: a label and an ordered list of children.  Token
leaves carry the rendered label `(KIND, lexeme)` and no children; `epsilon`
leaves carry the literal label `epsilon`. -/
inductive Node
  | mk (label : String) (children : List Node)

/-- Label of a node. -/
def Node.label : Node → String
  | .mk l _ => l

/-- Children of a node. -/
def Node.children : Node → List Node
  | .mk _ cs => cs

/-- Rendering of a token type (`TOKEN_TYPES` values). -/
def ttypeStr : TokType → String
  | .KEYWORD => "KEYWORD"
  | .ID => "ID"
  | .NUM => "NUM"
  | .SYMBOL => "SYMBOL"
  | .EOF => "EOF"
  | .ERROR => "ERROR"

/-- A `TokenNode`: label `(type, lexeme)`. -/
def tokNode (t : PToken) : Node := Node.mk ("(" ++ ttypeStr t.ttype ++ ", " ++ t.lexeme ++ ")") []

/-- The `epsilon` leaf. -/
def epsNode : Node := Node.mk "epsilon" []

/-- Parser state: the materialised token list, the cursor `self.i`, and the
accumulated `self.errors`. -/
structure PState where
  tokens : List PToken
  i : Nat
  errors : List String
deriving Inhabited

/-- `Parser.cur()` (in-bounds whenever the EOF invariant holds, see C10). -/
def cur (ps : PState) : PToken := ps.tokens.getD ps.i ⟨TokType.EOF, "$", 0, 0⟩

/-- `Parser.advance()`: refuses to move past the EOF token. -/
def padvance (ps : PState) : PState :=
  if (cur ps).ttype = TokType.EOF then ps else { ps with i := ps.i + 1 }

/-- `Parser.error(msg)`: record the message, then skip one token (simple
panic) unless at EOF. -/
def perror (ps : PState) (msg : String) : PState :=
  padvance { ps with errors := ps.errors ++ [msg] }

/-- Is the current token the given symbol lexeme? -/
def isSym (t : PToken) (lx : String) : Bool :=
  t.ttype = TokType.SYMBOL && t.lexeme = lx

/-- Is the current token a keyword with lexeme in the given set? -/
def isKw (t : PToken) (lxs : List String) : Bool :=
  t.ttype = TokType.KEYWORD && t.lexeme ∈ lxs

/-- `Parser.match(expected_type, expected_lexeme)`: on a type or lexeme
mismatch it records a positional syntax error and returns no node.  (The
grammar procedures of `compiler.py` never call it; it is embedded for the
error-format analysis of C6.) -/
def matchTok (ps : PState) (expected_type : Option TokType) (expected_lexeme : Option String) :
    Option Node × PState :=
  let t := cur ps
  match expected_type with
  | some et =>
    if t.ttype ≠ et then
      (none, perror ps ("Expected token type " ++ ttypeStr et ++ " but found " ++ ttypeStr t.ttype
        ++ " ('" ++ t.lexeme ++ "') at line " ++ Nat.repr t.line ++ " col " ++ Nat.repr t.col))
    else
      match expected_lexeme with
      | some el =>
        if t.lexeme ≠ el then
          (none, perror ps ("Expected '" ++ el ++ "' but found '" ++ t.lexeme ++ "' at line "
            ++ Nat.repr t.line ++ " col " ++ Nat.repr t.col))
        else (some (tokNode t), padvance ps)
      | none => (some (tokNode t), padvance ps)
  | none =>
    match expected_lexeme with
    | some el =>
      if t.lexeme ≠ el then
        (none, perror ps ("Expected '" ++ el ++ "' but found '" ++ t.lexeme ++ "' at line "
          ++ Nat.repr t.line ++ " col " ++ Nat.repr t.col))
      else (some (tokNode t), padvance ps)
    | none => (some (tokNode t), padvance ps)

/-- The non-terminals of the grammar procedures of `Parser`, plus three
auxiliary tags encoding the source-level `while` loops (`declListLoop` for
`declaration_list`, `stmtListLoop` for `statement_list`, `vdpSync` for the
synchronisation loop of `var_declaration_prime`). -/
inductive NT
  | program | declarationList | declListLoop | declaration | declarationInitial
  | declarationPrime | varDeclarationPrime | vdpSync | funDeclarationPrime | typeSpecifier
  | params | paramList | param | paramPrime | compoundStmt | statementList | stmtListLoop
  | statement | expressionStmt | selectionStmt | iterationStmt | returnStmt
  | expression | bRule | hRule | simpleExpressionZegond | simpleExpressionPrime | cRule
  | additiveExpression | additiveExpressionPrime | additiveExpressionZegond | dRule
  | term | termPrime | termZegond | gRule | signedFactor | signedFactorZegond
  | factor | varCallPrime | varPrime | factorPrime | factorZegond
  | args | argList | argListPrime
deriving DecidableEq

/-- Does the current token start a `Statement` (the guard of the
`statement_list` loop)? -/
def startsStatement (t : PToken) : Bool :=
  t.ttype = TokType.ID || isSym t "\x7b"
    || isKw t ["if", "for", "return", "break"] || isSym t ";"

/-- The grammar procedures of `Parser` (predictive recursive descent),
fuel-indexed on call depth.  Each case is the body of the corresponding
method of `compiler.py`; the loop tags return their gathered children inside
a wrapper node, unpacked by their callers. -/
def parseNT : Nat → NT → PState → Node × PState
  | 0, _, ps => (Node.mk "#fuel" [], ps)
  | fuel + 1, nt, ps =>
    match nt with
    | .program =>
      let r := parseNT fuel .declarationList ps
      (Node.mk "Program" [r.1], r.2)
    | .declarationList =>
      let r := parseNT fuel .declListLoop ps
      (Node.mk "Declaration-list" (if r.1.children.isEmpty then [epsNode] else r.1.children), r.2)
    | .declListLoop =>
      if isKw (cur ps) ["int", "void"] then
        let rd := parseNT fuel .declaration ps
        let rr := parseNT fuel .declListLoop rd.2
        (Node.mk "#loop" (rd.1 :: rr.1.children), rr.2)
      else (Node.mk "#loop" [], ps)
    | .declaration =>
      let r1 := parseNT fuel .declarationInitial ps
      let r2 := parseNT fuel .declarationPrime r1.2
      (Node.mk "Declaration" [r1.1, r2.1], r2.2)
    | .declarationInitial =>
      let r1 := parseNT fuel .typeSpecifier ps
      if (cur r1.2).ttype = TokType.ID then
        (Node.mk "Declaration-initial" [r1.1, tokNode (cur r1.2)], padvance r1.2)
      else
        (Node.mk "Declaration-initial" [r1.1],
         perror r1.2 ("Expected ID in Declaration-initial at "
           ++ Nat.repr (cur r1.2).line ++ ":" ++ Nat.repr (cur r1.2).col))
    | .declarationPrime =>
      if isSym (cur ps) "(" then
        let r := parseNT fuel .funDeclarationPrime ps
        (Node.mk "Declaration-prime" [r.1], r.2)
      else
        let r := parseNT fuel .varDeclarationPrime ps
        (Node.mk "Declaration-prime" [r.1], r.2)
    | .varDeclarationPrime =>
      if isSym (cur ps) "[" then
        let n1 := tokNode (cur ps)
        let ps1 := padvance ps
        let st2 :=
          if (cur ps1).ttype = TokType.NUM then ([tokNode (cur ps1)], padvance ps1)
          else ([], perror ps1 "Expected NUM in array declaration")
        let st3 :=
          if isSym (cur st2.2) "]" then (st2.1 ++ [tokNode (cur st2.2)], padvance st2.2)
          else (st2.1, perror st2.2 "Expected ] in array declaration")
        let st4 :=
          if isSym (cur st3.2) ";" then (st3.1 ++ [tokNode (cur st3.2)], padvance st3.2)
          else (st3.1, perror st3.2 "Expected ; after array declaration")
        (Node.mk "Var-declaration-prime" (n1 :: st4.1), st4.2)
      else if isSym (cur ps) ";" then
        (Node.mk "Var-declaration-prime" [tokNode (cur ps)], padvance ps)
      else
        let ps1 := perror ps "Expected ; or [ in Var-declaration-prime"
        let rs := parseNT fuel .vdpSync ps1
        if isSym (cur rs.2) ";" then
          (Node.mk "Var-declaration-prime" [tokNode (cur rs.2)], padvance rs.2)
        else (Node.mk "Var-declaration-prime" [], rs.2)
    | .vdpSync =>
      if (cur ps).ttype = TokType.EOF then (Node.mk "#sync" [], ps)
      else if isSym (cur ps) ";" then (Node.mk "#sync" [], ps)
      else parseNT fuel .vdpSync (padvance ps)
    | .funDeclarationPrime =>
      let st1 :=
        if isSym (cur ps) "(" then ([tokNode (cur ps)], padvance ps)
        else ([], perror ps "Expected ( in Fun-declaration-prime")
      let rp := parseNT fuel .params st1.2
      let st2 :=
        if isSym (cur rp.2) ")" then (st1.1 ++ [rp.1, tokNode (cur rp.2)], padvance rp.2)
        else (st1.1 ++ [rp.1], perror rp.2 "Expected ) in Fun-declaration-prime")
      let rc := parseNT fuel .compoundStmt st2.2
      (Node.mk "Fun-declaration-prime" (st2.1 ++ [rc.1]), rc.2)
    | .typeSpecifier =>
      if isKw (cur ps) ["int", "void"] then
        (Node.mk "Type-specifier" [tokNode (cur ps)], padvance ps)
      else
        (Node.mk "Type-specifier" [], perror ps "Expected int or void in Type-specifier")
    | .params =>
      if isKw (cur ps) ["void"] then
        (Node.mk "Params" [tokNode (cur ps)], padvance ps)
      else if isKw (cur ps) ["int"] then
        let n1 := tokNode (cur ps)
        let ps1 := padvance ps
        let st2 :=
          if (cur ps1).ttype = TokType.ID then ([tokNode (cur ps1)], padvance ps1)
          else ([], perror ps1 "Expected ID in Params")
        let rp := parseNT fuel .paramPrime st2.2
        let rl := parseNT fuel .paramList rp.2
        (Node.mk "Params" (n1 :: st2.1 ++ [rp.1, rl.1]), rl.2)
      else
        (Node.mk "Params" [], perror ps "Expected Params: void or int ID ...")
    | .paramList =>
      if isSym (cur ps) "," then
        let n1 := tokNode (cur ps)
        let ps1 := padvance ps
        let rp := parseNT fuel .param ps1
        let rl := parseNT fuel .paramList rp.2
        (Node.mk "Param-list" [n1, rp.1, rl.1], rl.2)
      else (Node.mk "Param-list" [epsNode], ps)
    | .param =>
      let r1 := parseNT fuel .declarationInitial ps
      let r2 := parseNT fuel .paramPrime r1.2
      (Node.mk "Param" [r1.1, r2.1], r2.2)
    | .paramPrime =>
      if isSym (cur ps) "[" then
        let n1 := tokNode (cur ps)
        let ps1 := padvance ps
        if isSym (cur ps1) "]" then
          (Node.mk "Param-prime" [n1, tokNode (cur ps1)], padvance ps1)
        else (Node.mk "Param-prime" [n1], perror ps1 "Expected ] in Param-prime")
      else (Node.mk "Param-prime" [epsNode], ps)
    | .compoundStmt =>
      let st1 :=
        if isSym (cur ps) "\x7b" then ([tokNode (cur ps)], padvance ps)
        else ([], perror ps "Expected \x7b in Compound-stmt")
      let rd := parseNT fuel .declarationList st1.2
      let rs := parseNT fuel .statementList rd.2
      let st2 :=
        if isSym (cur rs.2) "\x7d" then
          (st1.1 ++ [rd.1, rs.1, tokNode (cur rs.2)], padvance rs.2)
        else (st1.1 ++ [rd.1, rs.1], perror rs.2 "Expected \x7d in Compound-stmt")
      (Node.mk "Compound-stmt" st2.1, st2.2)
    | .statementList =>
      let r := parseNT fuel .stmtListLoop ps
      (Node.mk "Statement-list" (if r.1.children.isEmpty then [epsNode] else r.1.children), r.2)
    | .stmtListLoop =>
      if startsStatement (cur ps) then
        let rs := parseNT fuel .statement ps
        let rr := parseNT fuel .stmtListLoop rs.2
        (Node.mk "#loop" (rs.1 :: rr.1.children), rr.2)
      else (Node.mk "#loop" [], ps)
    | .statement =>
      if isSym (cur ps) "\x7b" then parseNT fuel .compoundStmt ps
      else if isKw (cur ps) ["if"] then parseNT fuel .selectionStmt ps
      else if isKw (cur ps) ["for"] then parseNT fuel .iterationStmt ps
      else if isKw (cur ps) ["return"] then parseNT fuel .returnStmt ps
      else parseNT fuel .expressionStmt ps
    | .expressionStmt =>
      if isKw (cur ps) ["break"] then
        let n1 := tokNode (cur ps)
        let ps1 := padvance ps
        if isSym (cur ps1) ";" then
          (Node.mk "Expression-stmt" [n1, tokNode (cur ps1)], padvance ps1)
        else (Node.mk "Expression-stmt" [n1], perror ps1 "Expected ; after break")
      else if isSym (cur ps) ";" then
        (Node.mk "Expression-stmt" [tokNode (cur ps)], padvance ps)
      else
        let re := parseNT fuel .expression ps
        if isSym (cur re.2) ";" then
          (Node.mk "Expression-stmt" [re.1, tokNode (cur re.2)], padvance re.2)
        else (Node.mk "Expression-stmt" [re.1], perror re.2 "Expected ; after expression")
    | .selectionStmt =>
      let st1 :=
        if isKw (cur ps) ["if"] then ([tokNode (cur ps)], padvance ps)
        else ([], perror ps "Expected if in Selection-stmt")
      let st2 :=
        if isSym (cur st1.2) "(" then (st1.1 ++ [tokNode (cur st1.2)], padvance st1.2)
        else (st1.1, perror st1.2 "Expected ( after if")
      let re := parseNT fuel .expression st2.2
      let st3 :=
        if isSym (cur re.2) ")" then (st2.1 ++ [re.1, tokNode (cur re.2)], padvance re.2)
        else (st2.1 ++ [re.1], perror re.2 "Expected ) after if condition")
      let rs := parseNT fuel .statement st3.2
      if isKw (cur rs.2) ["else"] then
        let n1 := tokNode (cur rs.2)
        let rs2 := parseNT fuel .statement (padvance rs.2)
        (Node.mk "Selection-stmt" (st3.1 ++ [rs.1, n1, rs2.1]), rs2.2)
      else
        (Node.mk "Selection-stmt" (st3.1 ++ [rs.1, epsNode]), rs.2)
    | .iterationStmt =>
      let st1 :=
        if isKw (cur ps) ["for"] then ([tokNode (cur ps)], padvance ps)
        else ([], perror ps "Expected for in Iteration-stmt")
      let st2 :=
        if isSym (cur st1.2) "(" then (st1.1 ++ [tokNode (cur st1.2)], padvance st1.2)
        else (st1.1, perror st1.2 "Expected ( after for")
      let r1 := parseNT fuel .expression st2.2
      let st3 :=
        if isSym (cur r1.2) ";" then (st2.1 ++ [r1.1, tokNode (cur r1.2)], padvance r1.2)
        else (st2.1 ++ [r1.1], perror r1.2 "Expected ; in for header")
      let r2 := parseNT fuel .expression st3.2
      let st4 :=
        if isSym (cur r2.2) ";" then (st3.1 ++ [r2.1, tokNode (cur r2.2)], padvance r2.2)
        else (st3.1 ++ [r2.1], perror r2.2 "Expected ; in for header (2)")
      let r3 := parseNT fuel .expression st4.2
      let st5 :=
        if isSym (cur r3.2) ")" then (st4.1 ++ [r3.1, tokNode (cur r3.2)], padvance r3.2)
        else (st4.1 ++ [r3.1], perror r3.2 "Expected ) after for header")
      let rc := parseNT fuel .compoundStmt st5.2
      (Node.mk "Iteration-stmt" (st5.1 ++ [rc.1]), rc.2)
    | .returnStmt =>
      let st1 :=
        if isKw (cur ps) ["return"] then ([tokNode (cur ps)], padvance ps)
        else ([], perror ps "Expected return")
      if isSym (cur st1.2) ";" then
        (Node.mk "Return-stmt" (st1.1 ++ [tokNode (cur st1.2)]), padvance st1.2)
      else
        let re := parseNT fuel .expression st1.2
        if isSym (cur re.2) ";" then
          (Node.mk "Return-stmt" (st1.1 ++ [re.1, tokNode (cur re.2)]), padvance re.2)
        else
          (Node.mk "Return-stmt" (st1.1 ++ [re.1]), perror re.2 "Expected ; after return expression")
    | .expression =>
      if (cur ps).ttype = TokType.ID then
        let n1 := tokNode (cur ps)
        let rb := parseNT fuel .bRule (padvance ps)
        (Node.mk "Expression" [n1, rb.1], rb.2)
      else
        let rz := parseNT fuel .simpleExpressionZegond ps
        (Node.mk "Expression" [rz.1], rz.2)
    | .bRule =>
      if isSym (cur ps) "=" then
        let n1 := tokNode (cur ps)
        let re := parseNT fuel .expression (padvance ps)
        (Node.mk "B" [n1, re.1], re.2)
      else if isSym (cur ps) "[" then
        let n1 := tokNode (cur ps)
        let re := parseNT fuel .expression (padvance ps)
        let st2 :=
          if isSym (cur re.2) "]" then ([n1, re.1, tokNode (cur re.2)], padvance re.2)
          else ([n1, re.1], perror re.2 "Expected ] in B")
        let rh := parseNT fuel .hRule st2.2
        (Node.mk "B" (st2.1 ++ [rh.1]), rh.2)
      else
        let rp := parseNT fuel .simpleExpressionPrime ps
        (Node.mk "B" [rp.1], rp.2)
    | .hRule =>
      if isSym (cur ps) "=" then
        let n1 := tokNode (cur ps)
        let re := parseNT fuel .expression (padvance ps)
        (Node.mk "H" [n1, re.1], re.2)
      else
        let rg := parseNT fuel .gRule ps
        let rd := parseNT fuel .dRule rg.2
        let rc := parseNT fuel .cRule rd.2
        (Node.mk "H" [rg.1, rd.1, rc.1], rc.2)
    | .simpleExpressionZegond =>
      let r1 := parseNT fuel .additiveExpressionZegond ps
      let r2 := parseNT fuel .cRule r1.2
      (Node.mk "Simple-expression-zegond" [r1.1, r2.1], r2.2)
    | .simpleExpressionPrime =>
      let r1 := parseNT fuel .additiveExpressionPrime ps
      let r2 := parseNT fuel .cRule r1.2
      (Node.mk "Simple-expression-prime" [r1.1, r2.1], r2.2)
    | .cRule =>
      if isSym (cur ps) "==" || isSym (cur ps) "<" then
        let relop := Node.mk "Relop" [tokNode (cur ps)]
        let ra := parseNT fuel .additiveExpression (padvance ps)
        (Node.mk "C" [relop, ra.1], ra.2)
      else (Node.mk "C" [epsNode], ps)
    | .additiveExpression =>
      let r1 := parseNT fuel .term ps
      let r2 := parseNT fuel .dRule r1.2
      (Node.mk "Additive-expression" [r1.1, r2.1], r2.2)
    | .additiveExpressionPrime =>
      let r1 := parseNT fuel .termPrime ps
      let r2 := parseNT fuel .dRule r1.2
      (Node.mk "Additive-expression-prime" [r1.1, r2.1], r2.2)
    | .additiveExpressionZegond =>
      let r1 := parseNT fuel .termZegond ps
      let r2 := parseNT fuel .dRule r1.2
      (Node.mk "Additive-expression-zegond" [r1.1, r2.1], r2.2)
    | .dRule =>
      if isSym (cur ps) "+" || isSym (cur ps) "-" then
        let addop := Node.mk "Addop" [tokNode (cur ps)]
        let rt := parseNT fuel .term (padvance ps)
        let rd := parseNT fuel .dRule rt.2
        (Node.mk "D" [addop, rt.1, rd.1], rd.2)
      else (Node.mk "D" [epsNode], ps)
    | .term =>
      let r1 := parseNT fuel .signedFactor ps
      let r2 := parseNT fuel .gRule r1.2
      (Node.mk "Term" [r1.1, r2.1], r2.2)
    | .termPrime =>
      let r1 := parseNT fuel .factorPrime ps
      let r2 := parseNT fuel .gRule r1.2
      (Node.mk "Term-prime" [r1.1, r2.1], r2.2)
    | .termZegond =>
      let r1 := parseNT fuel .signedFactorZegond ps
      let r2 := parseNT fuel .gRule r1.2
      (Node.mk "Term-zegond" [r1.1, r2.1], r2.2)
    | .gRule =>
      if isSym (cur ps) "*" || isSym (cur ps) "/" then
        let n1 := tokNode (cur ps)
        let rf := parseNT fuel .signedFactor (padvance ps)
        let rg := parseNT fuel .gRule rf.2
        (Node.mk "G" [n1, rf.1, rg.1], rg.2)
      else (Node.mk "G" [epsNode], ps)
    | .signedFactor =>
      if isSym (cur ps) "+" || isSym (cur ps) "-" then
        let n1 := tokNode (cur ps)
        let rf := parseNT fuel .factor (padvance ps)
        (Node.mk "Signed-factor" [n1, rf.1], rf.2)
      else
        let rf := parseNT fuel .factor ps
        (Node.mk "Signed-factor" [rf.1], rf.2)
    | .signedFactorZegond =>
      if isSym (cur ps) "+" || isSym (cur ps) "-" then
        let n1 := tokNode (cur ps)
        let rf := parseNT fuel .factor (padvance ps)
        (Node.mk "Signed-factor-zegond" [n1, rf.1], rf.2)
      else
        let rf := parseNT fuel .factorZegond ps
        (Node.mk "Signed-factor-zegond" [rf.1], rf.2)
    | .factor =>
      if isSym (cur ps) "(" then
        let n1 := tokNode (cur ps)
        let re := parseNT fuel .expression (padvance ps)
        if isSym (cur re.2) ")" then
          (Node.mk "Factor" [n1, re.1, tokNode (cur re.2)], padvance re.2)
        else (Node.mk "Factor" [n1, re.1], perror re.2 "Expected ) in Factor")
      else if (cur ps).ttype = TokType.ID then
        let n1 := tokNode (cur ps)
        let rv := parseNT fuel .varCallPrime (padvance ps)
        (Node.mk "Factor" [n1, rv.1], rv.2)
      else if (cur ps).ttype = TokType.NUM then
        (Node.mk "Factor" [tokNode (cur ps)], padvance ps)
      else
        (Node.mk "Factor" [], perror ps "Unexpected token in Factor")
    | .varCallPrime =>
      if isSym (cur ps) "(" then
        let n1 := tokNode (cur ps)
        let ra := parseNT fuel .args (padvance ps)
        if isSym (cur ra.2) ")" then
          (Node.mk "Var-call-prime" [n1, ra.1, tokNode (cur ra.2)], padvance ra.2)
        else (Node.mk "Var-call-prime" [n1, ra.1], perror ra.2 "Expected ) in Var-call-prime")
      else
        let rv := parseNT fuel .varPrime ps
        (Node.mk "Var-call-prime" [rv.1], rv.2)
    | .varPrime =>
      if isSym (cur ps) "[" then
        let n1 := tokNode (cur ps)
        let re := parseNT fuel .expression (padvance ps)
        if isSym (cur re.2) "]" then
          (Node.mk "Var-prime" [n1, re.1, tokNode (cur re.2)], padvance re.2)
        else (Node.mk "Var-prime" [n1, re.1], perror re.2 "Expected ] in Var-prime")
      else (Node.mk "Var-prime" [epsNode], ps)
    | .factorPrime =>
      if isSym (cur ps) "(" then
        let n1 := tokNode (cur ps)
        let ra := parseNT fuel .args (padvance ps)
        if isSym (cur ra.2) ")" then
          (Node.mk "Factor-prime" [n1, ra.1, tokNode (cur ra.2)], padvance ra.2)
        else (Node.mk "Factor-prime" [n1, ra.1], perror ra.2 "Expected ) in Factor-prime")
      else (Node.mk "Factor-prime" [epsNode], ps)
    | .factorZegond =>
      if isSym (cur ps) "(" then
        let n1 := tokNode (cur ps)
        let re := parseNT fuel .expression (padvance ps)
        if isSym (cur re.2) ")" then
          (Node.mk "Factor-zegond" [n1, re.1, tokNode (cur re.2)], padvance re.2)
        else (Node.mk "Factor-zegond" [n1, re.1], perror re.2 "Expected ) in Factor-zegond")
      else if (cur ps).ttype = TokType.NUM then
        (Node.mk "Factor-zegond" [tokNode (cur ps)], padvance ps)
      else
        (Node.mk "Factor-zegond" [], perror ps "Unexpected token in Factor-zegond")
    | .args =>
      if isSym (cur ps) ")" then (Node.mk "Args" [epsNode], ps)
      else
        let rl := parseNT fuel .argList ps
        (Node.mk "Args" [rl.1], rl.2)
    | .argList =>
      let r1 := parseNT fuel .expression ps
      let r2 := parseNT fuel .argListPrime r1.2
      (Node.mk "Arg-list" [r1.1, r2.1], r2.2)
    | .argListPrime =>
      if isSym (cur ps) "," then
        let n1 := tokNode (cur ps)
        let re := parseNT fuel .expression (padvance ps)
        let rp := parseNT fuel .argListPrime re.2
        (Node.mk "Arg-list-prime" [n1, re.1, rp.1], rp.2)
      else (Node.mk "Arg-list-prime" [epsNode], ps)

/-- Call-depth fuel used for concrete parses (ample for the inputs below). -/
def parseFuel : Nat := 64

/-- The runner of `compiler.py`: scan the source and parse from `Program`. -/
def parseRun (src : List Char) : Node × PState :=
  parseNT parseFuel .program ⟨scan src, 0, []⟩

/-! ## Notions the claims are stated with -/

/-- Characters of a source text. -/
def strL (s : String) : List Char := s.toList

/-- The closed lexical-error message set asserted by the spec (section 3). -/
def spec_lex_messages : List String :=
  ["Illegal character", "Malformed number", "Invalid input", "Unmatched comment",
   "Unclosed comment"]

/-- The lexical-error messages the code can actually record (the four
`log_error` call sites of `get_next_token`). -/
def code_lex_messages : List String :=
  ["Illegal character", "Malformed number", "Stray closing comment", "Open comment at EOF"]

/-- Child access in a parse tree. -/
def childAt (n : Node) (k : Nat) : Node := n.children.getD k (Node.mk "" [])

/-- The recursive realisation of `Declaration-list` asserted by C4: each
non-empty `Declaration-list` node has a `Declaration` child and a nested
`Declaration-list` child, the innermost holding `epsilon`. -/
inductive DLChain : Node → Prop
  | eps : DLChain (Node.mk "Declaration-list" [Node.mk "epsilon" []])
  | step (d tail : Node) : d.label = "Declaration" → tail.label = "Declaration-list" →
      DLChain tail → DLChain (Node.mk "Declaration-list" [d, tail])

/-- The syntax-error format asserted by C6: "Expected X but found '<lex>'
at line L col C". -/
def SyntaxErrFormat (msg : String) : Prop :=
  ∃ x lex L C, msg = "Expected " ++ x ++ " but found '" ++ lex ++ "' at line "
    ++ Nat.repr L ++ " col " ++ Nat.repr C

/-- The n-th repeated call of `get_next_token` starting from a fresh scanner
(`scanCalls src 0` is the first call). -/
def scanCalls (src : List Char) : Nat → LToken × ScanState
  | 0 => get_next_token (init_state src)
  | n + 1 => get_next_token (scanCalls src n).2

/-- Keyword invariant of the symbol table: every keyword has an entry with
class `KEYWORD` and no first-seen line. -/
def KwInv (t : List SymEntry) : Prop :=
  ∀ kw ∈ KEYWORDS, lookup_sym t kw = some ⟨kw, TokType.KEYWORD, none⟩

/-- Classification invariant of the symbol table: entries are classed
`KEYWORD` or `ID`, and `KEYWORD`-classed entries are actual keywords. -/
def ClsInv (t : List SymEntry) : Prop :=
  ∀ e ∈ t, (e.cls = TokType.KEYWORD → e.lexeme ∈ KEYWORDS) ∧
    (e.cls = TokType.KEYWORD ∨ e.cls = TokType.ID)

/-- In-bounds invariant of the parser: the cursor is in bounds and an EOF
token lies at or after it. -/
def PInv (ps : PState) : Prop :=
  ps.i < ps.tokens.length ∧
    ∃ j, ps.i ≤ j ∧ (ps.tokens.get? j).map PToken.ttype = some TokType.EOF

/-- Membership form used for invariants: every error after a step is an old
error or carries one of the four messages the code can log. -/
def ErrStep (old new : List (Nat × String × String)) : Prop :=
  ∀ e ∈ new, e ∈ old ∨ e.2.2 ∈ code_lex_messages

/-- The lexeme/class pair contributed by an emitted token. -/
def emitPairs : StepRes → List (String × TokType)
  | .emit t _ => [(t.lexeme, t.ttype)]
  | .again _ => []

/-- Tokens-preserving, invariant-preserving relation between parser states:
the state transformers of the grammar procedures all satisfy it. -/
def POk (ps psx : PState) : Prop :=
  psx.tokens = ps.tokens ∧ (PInv ps → PInv psx)

/-! ## Basic lemmas: scanner state operations -/

@[simp] theorem advance_src (s : ScanState) : s.advance.src = s.src := by
  unfold ScanState.advance; split <;> rfl

@[simp] theorem advance_lex_errors (s : ScanState) : s.advance.lex_errors = s.lex_errors := by
  unfold ScanState.advance; split <;> rfl

@[simp] theorem advance_symbol_table (s : ScanState) : s.advance.symbol_table = s.symbol_table := by
  unfold ScanState.advance; split <;> rfl

@[simp] theorem advance_last_token (s : ScanState) : s.advance.last_token = s.last_token := by
  unfold ScanState.advance; split <;> rfl

@[simp] theorem advance_remove_flag (s : ScanState) : s.advance.remove_flag = s.remove_flag := by
  unfold ScanState.advance; split <;> rfl

theorem advance_pos_le (s : ScanState) : s.pos ≤ s.advance.pos := by
  unfold ScanState.advance; split <;> simp [Nat.le_succ]

theorem advance_pos_eq (s : ScanState) (h : s.pos < s.src.length) : s.advance.pos = s.pos + 1 := by
  unfold ScanState.advance
  cases hg : s.src.get? s.pos with
  | none => rw [List.get?_eq_none] at hg; omega
  | some c => simp

theorem advance_pos_le_len (s : ScanState) (h : s.pos ≤ s.src.length) :
    s.advance.pos ≤ s.src.length := by
  unfold ScanState.advance
  cases hg : s.src.get? s.pos with
  | none => simpa using h
  | some c =>
    have : s.pos < s.src.length := by
      by_contra hc
      rw [List.get?_eq_none.mpr (by omega)] at hg
      exact Option.noConfusion hg
    simpa using this

@[simp] theorem advanceN_src (s : ScanState) (n : Nat) : (advanceN s n).src = s.src := by
  induction n generalizing s with
  | zero => rfl
  | succ n ih => rw [advanceN, ih, advance_src]

@[simp] theorem advanceN_lex_errors (s : ScanState) (n : Nat) :
    (advanceN s n).lex_errors = s.lex_errors := by
  induction n generalizing s with
  | zero => rfl
  | succ n ih => rw [advanceN, ih, advance_lex_errors]

@[simp] theorem advanceN_symbol_table (s : ScanState) (n : Nat) :
    (advanceN s n).symbol_table = s.symbol_table := by
  induction n generalizing s with
  | zero => rfl
  | succ n ih => rw [advanceN, ih, advance_symbol_table]

@[simp] theorem advanceN_last_token (s : ScanState) (n : Nat) :
    (advanceN s n).last_token = s.last_token := by
  induction n generalizing s with
  | zero => rfl
  | succ n ih => rw [advanceN, ih, advance_last_token]

@[simp] theorem advanceN_remove_flag (s : ScanState) (n : Nat) :
    (advanceN s n).remove_flag = s.remove_flag := by
  induction n generalizing s with
  | zero => rfl
  | succ n ih => rw [advanceN, ih, advance_remove_flag]

theorem advanceN_pos_le (s : ScanState) (n : Nat) : s.pos ≤ (advanceN s n).pos := by
  induction n generalizing s with
  | zero => exact Nat.le_refl _
  | succ n ih => exact Nat.le_trans (advance_pos_le s) (ih s.advance)

theorem advanceN_pos_eq (s : ScanState) (n : Nat) (h : s.pos + n ≤ s.src.length) :
    (advanceN s n).pos = s.pos + n := by
  induction n generalizing s with
  | zero => rfl
  | succ n ih =>
    have h1 : s.pos < s.src.length := by omega
    rw [advanceN, ih s.advance (by rw [advance_pos_eq s h1, advance_src]; omega),
        advance_pos_eq s h1]
    omega

theorem advanceN_pos_le_len (s : ScanState) (n : Nat) (h : s.pos ≤ s.src.length) :
    (advanceN s n).pos ≤ s.src.length := by
  induction n generalizing s with
  | zero => exact h
  | succ n ih =>
    rw [advanceN]
    have := ih s.advance (by rw [advance_src]; exact advance_pos_le_len s h)
    rwa [advance_src] at this

@[simp] theorem consume_while_src (p : Char → Bool) (s : ScanState) :
    (consume_while p s).2.src = s.src := by simp [consume_while]

@[simp] theorem consume_while_lex_errors (p : Char → Bool) (s : ScanState) :
    (consume_while p s).2.lex_errors = s.lex_errors := by simp [consume_while]

@[simp] theorem consume_while_symbol_table (p : Char → Bool) (s : ScanState) :
    (consume_while p s).2.symbol_table = s.symbol_table := by simp [consume_while]

@[simp] theorem consume_while_last_token (p : Char → Bool) (s : ScanState) :
    (consume_while p s).2.last_token = s.last_token := by simp [consume_while]

@[simp] theorem consume_while_remove_flag (p : Char → Bool) (s : ScanState) :
    (consume_while p s).2.remove_flag = s.remove_flag := by simp [consume_while]

theorem consume_while_pos_le (p : Char → Bool) (s : ScanState) :
    s.pos ≤ (consume_while p s).2.pos := advanceN_pos_le s _

theorem consume_while_pos_le_len (p : Char → Bool) (s : ScanState) (h : s.pos ≤ s.src.length) :
    (consume_while p s).2.pos ≤ s.src.length := advanceN_pos_le_len s _ h

@[simp] theorem log_error_fields (s : ScanState) (ln : Nat) (thrown msg : String) :
    (log_error s ln thrown msg).src = s.src ∧ (log_error s ln thrown msg).pos = s.pos ∧
    (log_error s ln thrown msg).lineno = s.lineno ∧
    (log_error s ln thrown msg).symbol_table = s.symbol_table ∧
    (log_error s ln thrown msg).last_token = s.last_token ∧
    (log_error s ln thrown msg).remove_flag = s.remove_flag := by
  simp [log_error]

@[simp] theorem log_error_lex_errors (s : ScanState) (ln : Nat) (thrown msg : String) :
    (log_error s ln thrown msg).lex_errors = s.lex_errors ++ [(ln, thrown, msg)] := rfl

@[simp] theorem set_last_error_fields (s : ScanState) (ln : Nat) (thrown msg : String) :
    (set_last_error s ln thrown msg).src = s.src ∧ (set_last_error s ln thrown msg).pos = s.pos ∧
    (set_last_error s ln thrown msg).lineno = s.lineno ∧
    (set_last_error s ln thrown msg).symbol_table = s.symbol_table ∧
    (set_last_error s ln thrown msg).last_token = s.last_token ∧
    (set_last_error s ln thrown msg).remove_flag = s.remove_flag := by
  simp [set_last_error]

@[simp] theorem set_last_error_lex_errors (s : ScanState) (ln : Nat) (thrown msg : String) :
    (set_last_error s ln thrown msg).lex_errors = s.lex_errors.dropLast ++ [(ln, thrown, msg)] := rfl

theorem add_symbol_fields (s : ScanState) (lex : String) (cls : TokType) (fs : Option Nat) :
    (add_symbol s lex cls fs).src = s.src ∧ (add_symbol s lex cls fs).pos = s.pos ∧
    (add_symbol s lex cls fs).lineno = s.lineno ∧
    (add_symbol s lex cls fs).lex_errors = s.lex_errors ∧
    (add_symbol s lex cls fs).last_token = s.last_token ∧
    (add_symbol s lex cls fs).remove_flag = s.remove_flag := by
  unfold add_symbol; split <;> [skip; simp] <;> split <;> simp

theorem remove_id_fields (s : ScanState) (lex : String) :
    (remove_id_from_symbol_table_if_present s lex).src = s.src ∧
    (remove_id_from_symbol_table_if_present s lex).pos = s.pos ∧
    (remove_id_from_symbol_table_if_present s lex).lineno = s.lineno ∧
    (remove_id_from_symbol_table_if_present s lex).lex_errors = s.lex_errors ∧
    (remove_id_from_symbol_table_if_present s lex).last_token = s.last_token := by
  simp [remove_id_from_symbol_table_if_present]

/-! ## Per-branch lemmas: source preservation -/

theorem stray_step_src (s : ScanState) : (stray_step s).st.src = s.src := by
  simp [stray_step, StepRes.st, log_error]

theorem slash_step_src (s : ScanState) : (slash_step s).st.src = s.src := by
  unfold slash_step
  dsimp only
  split
  · simp [StepRes.st]
  · split
    · split <;> simp [StepRes.st, log_error]
    · simp [StepRes.st]

theorem ident_step_src (s : ScanState) : (ident_step s).st.src = s.src := by
  unfold ident_step
  dsimp only
  split <;> simp [StepRes.st, (add_symbol_fields _ _ _ _).1]

theorem bad_number_step_src (s : ScanState) (ln : Nat) (th : String) :
    (bad_number_step s ln th).st.src = s.src := by
  unfold bad_number_step
  dsimp only
  split <;> simp [StepRes.st, panic_consume_until_token_start, log_error, set_last_error]

theorem number_step_src (s : ScanState) (c : Char) : (number_step s c).st.src = s.src := by
  unfold number_step
  dsimp only
  split
  · rw [bad_number_step_src]; simp
  · split
    · rw [bad_number_step_src]; simp
    · simp [StepRes.st]

theorem eq_step_src (s : ScanState) : (eq_step s).st.src = s.src := by
  unfold eq_step
  dsimp only
  split <;> simp [StepRes.st]

theorem sym_step_src (s : ScanState) (c : Char) : (sym_step s c).st.src = s.src := by
  simp [sym_step, StepRes.st]

theorem illegal_log_step_src (s2 : ScanState) (ln : Nat) (th : String) :
    (illegal_log_step s2 ln th).st.src = s2.src := by
  unfold illegal_log_step
  dsimp only
  split <;> simp [StepRes.st, panic_consume_until_token_start, log_error, set_last_error]

theorem illegal_step_src (s : ScanState) (c : Char) : (illegal_step s c).st.src = s.src := by
  unfold illegal_step
  dsimp only
  split <;>
    simp [illegal_log_step_src, remove_id_from_symbol_table_if_present]

theorem step_st_src (s : ScanState) (c : Char) : (step s c).st.src = s.src := by
  unfold step
  split_ifs
  · exact stray_step_src s
  · simp [StepRes.st]
  · exact slash_step_src s
  · exact ident_step_src s
  · exact number_step_src s c
  · exact eq_step_src s
  · exact sym_step_src s c
  · exact illegal_step_src s c

/-! ## Per-branch lemmas: position increase -/

theorem pos_lt_of_get (s : ScanState) (c : Char) (hc : s.src.get? s.pos = some c) :
    s.pos < s.src.length := by
  obtain ⟨h, -⟩ := List.get?_eq_some.mp hc
  exact h

theorem consume_while_pos_lt (p : Char → Bool) (s : ScanState) (c : Char)
    (hc : s.src.get? s.pos = some c) (hp : p c = true) :
    s.pos < (consume_while p s).2.pos := by
  have hlen : s.pos < s.src.length := pos_lt_of_get s c hc
  have hdrop : s.src.drop s.pos = c :: s.src.drop (s.pos + 1) := by
    rw [List.drop_eq_get_cons hlen]
    obtain ⟨h, hg⟩ := List.get?_eq_some.mp hc
    rw [hg]
  unfold consume_while
  rw [hdrop, List.takeWhile_cons, hp]
  simp only [List.length_cons, advanceN]
  calc s.pos < s.pos + 1 := Nat.lt_succ_self _
    _ = s.advance.pos := (advance_pos_eq s hlen).symm
    _ ≤ _ := advanceN_pos_le _ _

theorem advance2_pos_lt (s : ScanState) (h : s.pos < s.src.length) :
    s.pos < s.advance.advance.pos := by
  calc s.pos < s.pos + 1 := Nat.lt_succ_self _
    _ = s.advance.pos := (advance_pos_eq s h).symm
    _ ≤ _ := advance_pos_le _

theorem stray_step_pos (s : ScanState) (h : s.pos < s.src.length) :
    s.pos < (stray_step s).st.pos := by
  simpa [stray_step, StepRes.st, log_error] using advance2_pos_lt s h

theorem slash_step_pos (s : ScanState) (h : s.pos < s.src.length) :
    s.pos < (slash_step s).st.pos := by
  unfold slash_step
  dsimp only
  split
  · simp only [StepRes.st]
    exact Nat.lt_of_lt_of_le (advance2_pos_lt s h)
      (by simpa using consume_while_pos_le _ s.advance.advance)
  · split
    · split
      · simp only [StepRes.st]
        exact Nat.lt_of_lt_of_le (advance2_pos_lt s h) (by simpa using advanceN_pos_le _ _)
      · simp only [StepRes.st, log_error]
        exact Nat.lt_of_lt_of_le (advance2_pos_lt s h) (by simpa using advanceN_pos_le _ _)
    · simp only [StepRes.st]
      calc s.pos < s.pos + 1 := Nat.lt_succ_self _
        _ = s.advance.pos := (advance_pos_eq s h).symm

theorem ident_step_pos (s : ScanState) (c : Char) (hc : s.src.get? s.pos = some c)
    (hid : isIdentChar c = true) : s.pos < (ident_step s).st.pos := by
  unfold ident_step
  dsimp only
  split
  · simpa [StepRes.st, (add_symbol_fields _ _ _ _).2.1] using
      consume_while_pos_lt isIdentChar s c hc hid
  · simpa [StepRes.st, (add_symbol_fields _ _ _ _).2.1] using
      consume_while_pos_lt isIdentChar s c hc hid

theorem bad_number_step_pos_le (s : ScanState) (ln : Nat) (th : String) :
    s.pos ≤ (bad_number_step s ln th).st.pos := by
  unfold bad_number_step
  dsimp only
  split <;>
    simpa [StepRes.st, panic_consume_until_token_start, log_error, set_last_error] using
      consume_while_pos_le _ (log_error s ln th "Malformed number")

theorem number_step_pos (s : ScanState) (c : Char) (h : s.pos < s.src.length) :
    s.pos < (number_step s c).st.pos := by
  have h1 : s.pos < s.advance.pos := by rw [advance_pos_eq s h]; exact Nat.lt_succ_self _
  unfold number_step
  dsimp only
  split
  · have h2 : s.advance.pos ≤ (consume_while isIdentChar s.advance).2.pos :=
      consume_while_pos_le _ _
    exact Nat.lt_of_lt_of_le (Nat.lt_of_lt_of_le h1 h2) (bad_number_step_pos_le _ _ _)
  · split
    · have h2 : s.advance.pos ≤ (consume_while isDigitC s.advance).2.pos :=
        consume_while_pos_le _ _
      have h3 : (consume_while isDigitC s.advance).2.pos ≤
          (consume_while isIdentChar (consume_while isDigitC s.advance).2).2.pos :=
        consume_while_pos_le _ _
      exact Nat.lt_of_lt_of_le (Nat.lt_of_lt_of_le (Nat.lt_of_lt_of_le h1 h2) h3)
        (bad_number_step_pos_le _ _ _)
    · simp only [StepRes.st]
      exact Nat.lt_of_lt_of_le h1 (consume_while_pos_le isDigitC s.advance)

theorem eq_step_pos (s : ScanState) (h : s.pos < s.src.length) :
    s.pos < (eq_step s).st.pos := by
  unfold eq_step
  dsimp only
  split
  · simp only [StepRes.st]
    exact advance2_pos_lt s h
  · simp only [StepRes.st]
    rw [advance_pos_eq s h]
    exact Nat.lt_succ_self _

theorem sym_step_pos (s : ScanState) (c : Char) (h : s.pos < s.src.length) :
    s.pos < (sym_step s c).st.pos := by
  simp only [sym_step, StepRes.st]
  rw [advance_pos_eq s h]
  exact Nat.lt_succ_self _

theorem illegal_log_step_pos_le (s2 : ScanState) (ln : Nat) (th : String) :
    s2.pos ≤ (illegal_log_step s2 ln th).st.pos := by
  unfold illegal_log_step
  dsimp only
  split <;>
    simpa [StepRes.st, panic_consume_until_token_start, log_error, set_last_error] using
      consume_while_pos_le _ (log_error s2 ln th "Illegal character")

theorem illegal_step_pos (s : ScanState) (c : Char) (h : s.pos < s.src.length) :
    s.pos < (illegal_step s c).st.pos := by
  have h1 : s.pos < s.advance.pos := by rw [advance_pos_eq s h]; exact Nat.lt_succ_self _
  have h2 : s.advance.pos ≤ (consume_while isIdentChar s.advance).2.pos :=
    consume_while_pos_le _ _
  unfold illegal_step
  dsimp only
  split
  · refine Nat.lt_of_lt_of_le (Nat.lt_of_lt_of_le h1 h2) ?_
    refine le_trans ?_ (illegal_log_step_pos_le _ _ _)
    simp [remove_id_from_symbol_table_if_present]
  · exact Nat.lt_of_lt_of_le (Nat.lt_of_lt_of_le h1 h2) (illegal_log_step_pos_le _ _ _)

/-! ## Per-branch lemmas: error-list evolution -/

theorem bad_number_step_errors (s : ScanState) (ln : Nat) (th : String) :
    ∃ ext, (bad_number_step s ln th).st.lex_errors
      = s.lex_errors ++ [(ln, th ++ ext, "Malformed number")] := by
  unfold bad_number_step
  dsimp only
  split
  · exact ⟨"", by simp [StepRes.st, panic_consume_until_token_start, log_error]⟩
  · refine ⟨String.mk (panic_consume_until_token_start
      (log_error s ln th "Malformed number")).1, ?_⟩
    simp [StepRes.st, panic_consume_until_token_start, log_error, set_last_error,
      List.dropLast_concat]

theorem illegal_log_step_errors (s2 : ScanState) (ln : Nat) (th : String) :
    ∃ ext, (illegal_log_step s2 ln th).st.lex_errors
      = s2.lex_errors ++ [(ln, th ++ ext, "Illegal character")] := by
  unfold illegal_log_step
  dsimp only
  split
  · exact ⟨"", by simp [StepRes.st, panic_consume_until_token_start, log_error]⟩
  · refine ⟨String.mk (panic_consume_until_token_start
      (log_error s2 ln th "Illegal character")).1, ?_⟩
    simp [StepRes.st, panic_consume_until_token_start, log_error, set_last_error,
      List.dropLast_concat]

theorem errStep_refl (l : List (Nat × String × String)) : ErrStep l l := fun e he => Or.inl he

theorem errStep_concat (l : List (Nat × String × String)) (a : Nat × String × String)
    (h : a.2.2 ∈ code_lex_messages) : ErrStep l (l ++ [a]) := by
  intro e he
  rcases List.mem_append.mp he with h1 | h1
  · exact Or.inl h1
  · simp only [List.mem_singleton] at h1
    subst h1
    exact Or.inr h

theorem stray_step_errors (s : ScanState) : ErrStep s.lex_errors (stray_step s).st.lex_errors := by
  simp only [stray_step, StepRes.st, log_error_lex_errors, advance_lex_errors]
  exact errStep_concat _ _ (by simp [code_lex_messages])

theorem slash_step_errors (s : ScanState) : ErrStep s.lex_errors (slash_step s).st.lex_errors := by
  unfold slash_step
  dsimp only
  split
  · simp only [StepRes.st, consume_while_lex_errors, advance_lex_errors]
    exact errStep_refl _
  · split
    · split
      · simp only [StepRes.st, advanceN_lex_errors, advance_lex_errors]
        exact errStep_refl _
      · simp only [StepRes.st, log_error_lex_errors, advanceN_lex_errors, advance_lex_errors]
        exact errStep_concat _ _ (by simp [code_lex_messages])
    · simp only [StepRes.st, advance_lex_errors]
      exact errStep_refl _

theorem ident_step_errors (s : ScanState) : ErrStep s.lex_errors (ident_step s).st.lex_errors := by
  unfold ident_step
  dsimp only
  split <;>
  · simp only [StepRes.st, (add_symbol_fields _ _ _ _).2.2.2.1, consume_while_lex_errors]
    exact errStep_refl _

theorem number_step_errors (s : ScanState) (c : Char) :
    ErrStep s.lex_errors (number_step s c).st.lex_errors := by
  unfold number_step
  dsimp only
  split
  · obtain ⟨ext, hext⟩ := bad_number_step_errors
      (consume_while isIdentChar s.advance).2 s.lineno (String.mk (c :: (consume_while isIdentChar s.advance).1))
    rw [hext]
    simp only [consume_while_lex_errors, advance_lex_errors]
    exact errStep_concat _ _ (by simp [code_lex_messages])
  · split
    · obtain ⟨ext, hext⟩ := bad_number_step_errors
        (consume_while isIdentChar (consume_while isDigitC s.advance).2).2 s.lineno _
      rw [hext]
      simp only [consume_while_lex_errors, advance_lex_errors]
      exact errStep_concat _ _ (by simp [code_lex_messages])
    · simp only [StepRes.st, consume_while_lex_errors, advance_lex_errors]
      exact errStep_refl _

theorem eq_step_errors (s : ScanState) : ErrStep s.lex_errors (eq_step s).st.lex_errors := by
  unfold eq_step
  dsimp only
  split <;>
  · simp only [StepRes.st, advance_lex_errors]
    exact errStep_refl _

theorem sym_step_errors (s : ScanState) (c : Char) :
    ErrStep s.lex_errors (sym_step s c).st.lex_errors := by
  simp only [sym_step, StepRes.st, advance_lex_errors]
  exact errStep_refl _

theorem illegal_step_errors (s : ScanState) (c : Char) :
    ErrStep s.lex_errors (illegal_step s c).st.lex_errors := by
  unfold illegal_step
  dsimp only
  split
  · obtain ⟨ext, hext⟩ := illegal_log_step_errors
      (remove_id_from_symbol_table_if_present
        { (consume_while isIdentChar s.advance).2 with remove_flag := _ } _) s.lineno _
    rw [hext]
    simp only [remove_id_from_symbol_table_if_present, consume_while_lex_errors,
      advance_lex_errors]
    exact errStep_concat _ _ (by simp [code_lex_messages])
  · obtain ⟨ext, hext⟩ := illegal_log_step_errors (consume_while isIdentChar s.advance).2 s.lineno _
    rw [hext]
    simp only [consume_while_lex_errors, advance_lex_errors]
    exact errStep_concat _ _ (by simp [code_lex_messages])

theorem step_st_errors (s : ScanState) (c : Char) :
    ErrStep s.lex_errors (step s c).st.lex_errors := by
  unfold step
  split_ifs
  · exact stray_step_errors s
  · simp only [StepRes.st, advance_lex_errors]; exact errStep_refl _
  · exact slash_step_errors s
  · exact ident_step_errors s
  · exact number_step_errors s c
  · exact eq_step_errors s
  · exact sym_step_errors s c
  · exact illegal_step_errors s c


theorem isIdentChar_of_start (c : Char) (h : (isAsciiAlpha c || c = '_') = true) :
    isIdentChar c = true := by
  simp only [Bool.or_eq_true, decide_eq_true_eq] at h
  rcases h with h1 | h1 <;> simp [isIdentChar, h1]

theorem step_st_pos (s : ScanState) (c : Char) (hc : s.src.get? s.pos = some c) :
    s.pos < (step s c).st.pos := by
  have h : s.pos < s.src.length := pos_lt_of_get s c hc
  unfold step
  split_ifs with h1 h2 h3 h4 h5 h6 h7
  · exact stray_step_pos s h
  · simp only [StepRes.st]
    rw [advance_pos_eq s h]
    exact Nat.lt_succ_self _
  · exact slash_step_pos s h
  · exact ident_step_pos s c hc (isIdentChar_of_start c h4)
  · exact number_step_pos s c h
  · exact eq_step_pos s h
  · exact sym_step_pos s c h
  · exact illegal_step_pos s c h

/-! ## Per-branch lemmas: emitted token kinds and the EOF emit -/

theorem get?_lt {α : Type} (l : List α) (n : Nat) (a : α) (h : l.get? n = some a) :
    n < l.length := by
  obtain ⟨h, -⟩ := List.get?_eq_some.mp h
  exact h

theorem step_emit_prop (s : ScanState) (c : Char) (t : LToken) (s' : ScanState)
    (hstep : step s c = .emit t s') :
    t.ttype ≠ TokType.ERROR ∧
      (t.ttype = TokType.EOF → s'.src.length ≤ s'.pos ∧ t.line = s'.lineno) := by
  unfold step at hstep
  split at hstep
  · exact absurd hstep (by unfold stray_step; dsimp only; intro h; cases h)
  · split at hstep
    · exact absurd hstep (by intro h; cases h)
    · split at hstep
      · -- slash_step
        unfold slash_step at hstep
        dsimp only at hstep
        split at hstep
        · cases hstep
        · split at hstep
          · split at hstep
            · cases hstep
            · injection hstep with ht hs
              subst ht hs
              refine ⟨by simp, fun _ => ?_⟩
              have hpk : s.peek 1 = some '*' := by assumption
              unfold ScanState.peek at hpk
              have hlt1 : s.pos + 1 < s.src.length := get?_lt _ _ _ hpk
              have hlt0 : s.pos < s.src.length := by omega
              have hp2 : s.advance.advance.pos = s.pos + 2 := by
                rw [advance_pos_eq s.advance (by rw [advance_src, advance_pos_eq s hlt0]; omega),
                  advance_pos_eq s hlt0]
              constructor
              · simp only [log_error]
                simp only [advanceN_src, advance_src]
                rw [advanceN_pos_eq s.advance.advance (s.src.length - s.advance.advance.pos)
                  (by simp only [advance_src]; omega)]
                omega
              · rfl
          · injection hstep with ht hs
            subst ht hs
            exact ⟨by simp, by simp⟩
      · split at hstep
        · -- ident_step
          unfold ident_step at hstep
          dsimp only at hstep
          split at hstep <;>
          · injection hstep with ht hs
            subst ht hs
            exact ⟨by simp, by simp⟩
        · split at hstep
          · -- number_step
            unfold number_step at hstep
            dsimp only at hstep
            split at hstep
            · exact absurd hstep
                (by unfold bad_number_step; dsimp only; split <;> (intro h; cases h))
            · split at hstep
              · exact absurd hstep
                  (by unfold bad_number_step; dsimp only; split <;> (intro h; cases h))
              · injection hstep with ht hs
                subst ht hs
                exact ⟨by simp, by simp⟩
          · split at hstep
            · -- eq_step
              unfold eq_step at hstep
              dsimp only at hstep
              split at hstep <;>
              · injection hstep with ht hs
                subst ht hs
                exact ⟨by simp, by simp⟩
            · split at hstep
              · -- sym_step
                unfold sym_step at hstep
                dsimp only at hstep
                injection hstep with ht hs
                subst ht hs
                exact ⟨by simp, by simp⟩
              · -- illegal_step
                exact absurd hstep (by
                  unfold illegal_step illegal_log_step
                  dsimp only
                  split <;> split <;> (intro h; cases h))

/-! ## Lemmas about `get_next_token` -/

theorem errStep_trans (a b c : List (Nat × String × String))
    (h1 : ErrStep a b) (h2 : ErrStep b c) : ErrStep a c := by
  intro e he
  rcases h2 e he with h | h
  · exact h1 e h
  · exact Or.inr h

theorem get_next_token_fuel_isSome (fuel : Nat) (s : ScanState)
    (h : s.src.length - s.pos < fuel) : (get_next_token_fuel fuel s).isSome := by
  induction fuel generalizing s with
  | zero => omega
  | succ fuel ih =>
    rw [get_next_token_fuel]
    cases hg : s.src.get? s.pos with
    | none => simp
    | some c =>
      simp only []
      cases hs : step s c with
      | emit t s' => simp
      | again s' =>
        simp only []
        apply ih
        have h1 := step_st_pos s c hg
        have h2 := step_st_src s c
        rw [hs] at h1 h2
        simp only [StepRes.st] at h1 h2
        have hp : s.pos < s.src.length := pos_lt_of_get s c hg
        rw [h2]
        omega

theorem get_next_token_fuel_mono (fuel : Nat) (s : ScanState) (r : LToken × ScanState)
    (h : get_next_token_fuel fuel s = some r) :
    ∀ fuel', fuel ≤ fuel' → get_next_token_fuel fuel' s = some r := by
  induction fuel generalizing s with
  | zero => rw [get_next_token_fuel] at h; cases h
  | succ fuel ih =>
    intro fuel' hle
    obtain ⟨k, rfl⟩ : ∃ k, fuel' = k + 1 := ⟨fuel' - 1, by omega⟩
    rw [get_next_token_fuel] at h ⊢
    split at h
    · rename_i c hg
      split at h
      · rename_i t0 s0 hs
        exact h
      · rename_i s0 hs
        exact ih s0 h k (by omega)
    · rename_i hg
      exact h

theorem get_next_token_eq_fuel (s : ScanState) :
    get_next_token_fuel (s.src.length - s.pos + 1) s = some (get_next_token s) := by
  have hs := get_next_token_fuel_isSome (s.src.length - s.pos + 1) s (by omega)
  unfold get_next_token
  cases hx : get_next_token_fuel (s.src.length - s.pos + 1) s with
  | none => rw [hx] at hs; cases hs
  | some r => simp [hx]

theorem gntf_spec (fuel : Nat) (s : ScanState) (t : LToken) (s' : ScanState)
    (h : get_next_token_fuel fuel s = some (t, s')) :
    s'.src = s.src ∧ s.pos ≤ s'.pos ∧ (t.ttype ≠ TokType.EOF → s.pos < s'.pos) ∧
    (t.ttype = TokType.EOF → s'.src.length ≤ s'.pos ∧ t.line = s'.lineno) ∧
    t.ttype ≠ TokType.ERROR ∧ ErrStep s.lex_errors s'.lex_errors := by
  induction fuel generalizing s with
  | zero => rw [get_next_token_fuel] at h; cases h
  | succ fuel ih =>
    rw [get_next_token_fuel] at h
    split at h
    · rename_i c hg
      have hp : s.pos < s.src.length := pos_lt_of_get s c hg
      split at h
      · rename_i t0 s0 hs
        injection h with h1
        injection h1 with h1 h2
        subst h1 h2
        have hsrc := step_st_src s c
        have hpos := step_st_pos s c hg
        have herr := step_st_errors s c
        rw [hs] at hsrc hpos herr
        simp only [StepRes.st] at hsrc hpos herr
        have hemit := step_emit_prop s c _ _ hs
        exact ⟨hsrc, Nat.le_of_lt hpos, fun _ => hpos, hemit.2, hemit.1, herr⟩
      · rename_i s0 hs
        have hsrc := step_st_src s c
        have hpos := step_st_pos s c hg
        have herr := step_st_errors s c
        rw [hs] at hsrc hpos herr
        simp only [StepRes.st] at hsrc hpos herr
        obtain ⟨ih1, ih2, ih3, ih4, ih5, ih6⟩ := ih s0 h
        refine ⟨by rw [ih1, hsrc], by omega, fun _ => by omega, ih4, ih5,
          errStep_trans _ _ _ herr ih6⟩
    · rename_i hg
      injection h with h1
      injection h1 with h1 h2
      subst h1 h2
      refine ⟨rfl, Nat.le_refl _, fun hne => absurd rfl hne, fun _ => ?_, by simp, errStep_refl _⟩
      constructor
      · simpa using List.get?_eq_none.mp hg
      · rfl

theorem get_next_token_spec (s : ScanState) :
    (get_next_token s).2.src = s.src ∧ s.pos ≤ (get_next_token s).2.pos ∧
    ((get_next_token s).1.ttype ≠ TokType.EOF → s.pos < (get_next_token s).2.pos) ∧
    ((get_next_token s).1.ttype = TokType.EOF →
      (get_next_token s).2.src.length ≤ (get_next_token s).2.pos ∧
      (get_next_token s).1.line = (get_next_token s).2.lineno) ∧
    (get_next_token s).1.ttype ≠ TokType.ERROR ∧
    ErrStep s.lex_errors (get_next_token s).2.lex_errors := by
  have h := get_next_token_eq_fuel s
  have h2 : get_next_token_fuel (s.src.length - s.pos + 1) s
      = some ((get_next_token s).1, (get_next_token s).2) := by
    rw [Prod.mk.eta]
    exact h
  exact gntf_spec _ s (get_next_token s).1 (get_next_token s).2 h2

theorem get_next_token_at_end (s : ScanState) (h : s.src.length ≤ s.pos) :
    get_next_token s = (⟨TokType.EOF, "EOF", s.lineno⟩, { s with last_token := none }) := by
  unfold get_next_token
  have h1 : s.src.length - s.pos + 1 = 1 := by omega
  rw [h1, get_next_token_fuel, List.get?_eq_none.mpr h]
  rfl

/-! ## Lemmas about the `main()` loop -/

theorem run_fuel_isSome (fuel : Nat) (s : ScanState) (lines : LinesOut)
    (retr : List (String × Nat)) (h : s.src.length - s.pos < fuel) :
    (run_fuel fuel s lines retr).isSome := by
  induction fuel generalizing s lines retr with
  | zero => omega
  | succ fuel ih =>
    rw [run_fuel]
    obtain ⟨hsrc, hle, hlt, heof, herr, hstep⟩ := get_next_token_spec s
    dsimp only
    split
    · split
      · simp
      · rename_i hne
        apply ih
        simp only [hsrc]
        have hp : s.pos < (get_next_token s).2.pos := hlt hne
        have hplen : s.pos < s.src.length := by
          by_contra hc
          rw [get_next_token_at_end s (by omega)] at hne
          exact hne rfl
        omega
    · split
      · simp
      · rename_i hne
        apply ih
        rw [hsrc]
        have hp : s.pos < (get_next_token s).2.pos := hlt hne
        have hplen : s.pos < s.src.length := by
          by_contra hc
          rw [get_next_token_at_end s (by omega)] at hne
          exact hne rfl
        omega

theorem run_fuel_errors (fuel : Nat) (s : ScanState) (lines : LinesOut)
    (retr : List (String × Nat)) (res : RunRes)
    (h : run_fuel fuel s lines retr = some res)
    (hinv : ∀ e ∈ s.lex_errors, e.2.2 ∈ code_lex_messages) :
    ∀ e ∈ res.errors, e.2.2 ∈ code_lex_messages := by
  induction fuel generalizing s lines retr with
  | zero => rw [run_fuel] at h; cases h
  | succ fuel ih =>
    rw [run_fuel] at h
    obtain ⟨hsrc, hle, hlt, heof, herrtok, hstep⟩ := get_next_token_spec s
    have hinv' : ∀ e ∈ (get_next_token s).2.lex_errors, e.2.2 ∈ code_lex_messages := by
      intro e he
      rcases hstep e he with h1 | h1
      · exact hinv e h1
      · exact h1
    dsimp only at h
    split at h
    · split at h
      · injection h with h1
        subst h1
        exact hinv'
      · exact ih _ _ _ h hinv'
    · split at h
      · injection h with h1
        subst h1
        exact hinv'
      · exact ih _ _ _ h hinv'

theorem run_scanner_eq (src : List Char) :
    run_fuel (src.length + 1) (init_state src) [] [] = some (run_scanner src) := by
  have hs := run_fuel_isSome (src.length + 1) (init_state src) [] [] (by simp [init_state])
  unfold run_scanner
  cases hx : run_fuel (src.length + 1) (init_state src) [] [] with
  | none => rw [hx] at hs; cases hs
  | some r => simp [hx]

/-! ## Symbol-table micro-lemmas -/

theorem find?_append_left {α : Type} (l l' : List α) (p : α → Bool) (a : α)
    (h : l.find? p = some a) : (l ++ l').find? p = some a := by
  induction l with
  | nil => simp at h
  | cons b l ih =>
    rw [List.find?_cons] at h
    rw [List.cons_append, List.find?_cons]
    cases hb : p b with
    | true =>
      rw [hb] at h
      exact h
    | false =>
      rw [hb] at h
      exact ih h

theorem lookup_sym_map_update (l : List SymEntry) (lex : String) (fs : Option Nat)
    (kw : String) (hne : kw ≠ lex) :
    lookup_sym (l.map (fun e2 => if e2.lexeme == lex then { e2 with first_seen := fs } else e2)) kw
      = lookup_sym l kw := by
  induction l with
  | nil => rfl
  | cons a l ih =>
    simp only [lookup_sym, List.map_cons] at ih ⊢
    cases hal : (a.lexeme == lex) with
    | true =>
      cases hak : (a.lexeme == kw) with
      | true =>
        rw [beq_iff_eq] at hal hak
        exact absurd (by rw [← hak, hal]) hne
      | false =>
        simp only [List.find?_cons, hal, if_true]
        rw [hak]
        exact ih
    | false =>
      cases hak : (a.lexeme == kw) with
      | true =>
        simp only [List.find?_cons, hal, if_false, Bool.false_eq_true]
        rw [hak]
      | false =>
        simp only [List.find?_cons, hal, if_false, Bool.false_eq_true]
        rw [hak]
        exact ih

theorem find?_filter_keyword (l : List SymEntry) (lex kw : String) (e : SymEntry)
    (h : List.find? (fun e2 => e2.lexeme == kw) l = some e) (hcls : e.cls = TokType.KEYWORD) :
    List.find? (fun e2 => e2.lexeme == kw)
      (l.filter (fun e2 => !(e2.lexeme == lex && e2.cls == TokType.ID))) = some e := by
  induction l with
  | nil => simp at h
  | cons a l ih =>
    rw [List.find?_cons] at h
    cases hak : (a.lexeme == kw) with
    | true =>
      rw [hak] at h
      injection h with h
      have hkeep : (!(a.lexeme == lex && a.cls == TokType.ID)) = true := by
        rw [h, hcls]
        simp
      rw [List.filter_cons]
      simp only [hkeep, if_true, List.find?_cons, hak]
      exact congrArg some h
    | false =>
      rw [hak] at h
      rw [List.filter_cons]
      split
      · rw [List.find?_cons, hak]
        exact ih h
      · exact ih h

theorem add_symbol_keyword_preserve (s : ScanState) (lex : String) (cls : TokType)
    (fs : Option Nat) (kw : String) (e : SymEntry)
    (h : lookup_sym s.symbol_table kw = some e) (hcls : e.cls = TokType.KEYWORD) :
    lookup_sym (add_symbol s lex cls fs).symbol_table kw = some e := by
  unfold add_symbol
  split
  · rename_i e' he'
    split
    · rename_i hguard
      by_cases hkl : kw = lex
      · subst hkl
        rw [h] at he'
        injection he' with he'
        subst he'
        rw [hcls] at hguard
        exact absurd hguard.1 (by simp)
      · simp only []
        rw [lookup_sym_map_update _ _ _ _ hkl]
        exact h
    · exact h
  · simp only []
    exact find?_append_left _ _ _ _ h

theorem remove_id_keyword_preserve (s : ScanState) (lex : String) (kw : String) (e : SymEntry)
    (h : lookup_sym s.symbol_table kw = some e) (hcls : e.cls = TokType.KEYWORD) :
    lookup_sym (remove_id_from_symbol_table_if_present s lex).symbol_table kw = some e :=
  find?_filter_keyword s.symbol_table lex kw e h hcls

theorem KwInv_add_symbol (s : ScanState) (lex : String) (cls : TokType) (fs : Option Nat)
    (h : KwInv s.symbol_table) : KwInv (add_symbol s lex cls fs).symbol_table :=
  fun kw hkw => add_symbol_keyword_preserve s lex cls fs kw _ (h kw hkw) rfl

theorem KwInv_remove_id (s : ScanState) (lex : String)
    (h : KwInv s.symbol_table) :
    KwInv (remove_id_from_symbol_table_if_present s lex).symbol_table :=
  fun kw hkw => remove_id_keyword_preserve s lex kw _ (h kw hkw) rfl

theorem sym_pairs_map_update (l : List SymEntry) (lex : String) (fs : Option Nat) :
    sym_pairs (l.map (fun e2 => if e2.lexeme == lex then { e2 with first_seen := fs } else e2))
      = sym_pairs l := by
  induction l with
  | nil => rfl
  | cons a l ih =>
    simp only [sym_pairs, List.map_cons] at ih ⊢
    rw [ih]
    by_cases ha : (a.lexeme == lex) = true
    · simp [ha]
    · simp only [Bool.not_eq_true] at ha
      simp [ha]

theorem ClsInv_add_symbol (s : ScanState) (lex : String) (cls : TokType) (fs : Option Nat)
    (hc : cls = TokType.ID ∨ (cls = TokType.KEYWORD ∧ lex ∈ KEYWORDS))
    (h : ClsInv s.symbol_table) : ClsInv (add_symbol s lex cls fs).symbol_table := by
  unfold add_symbol
  split
  · split
    · intro e he
      simp only [List.mem_map] at he
      obtain ⟨e0, he0, heq⟩ := he
      have h0 := h e0 he0
      subst heq
      split
      · exact h0
      · exact h0
    · exact h
  · intro e he
    rcases List.mem_append.mp he with h1 | h1
    · exact h e h1
    · simp only [List.mem_singleton] at h1
      subst h1
      rcases hc with h2 | ⟨h2, h3⟩
      · exact ⟨fun hx => absurd (h2 ▸ hx) (by simp), Or.inr h2⟩
      · exact ⟨fun _ => h3, Or.inl h2⟩

theorem ClsInv_remove_id (s : ScanState) (lex : String)
    (h : ClsInv s.symbol_table) :
    ClsInv (remove_id_from_symbol_table_if_present s lex).symbol_table := by
  intro e he
  exact h e (List.mem_of_mem_filter he)

theorem add_symbol_pairs_super (s : ScanState) (lex : String) (cls : TokType) (fs : Option Nat) :
    sym_pairs s.symbol_table ⊆ sym_pairs (add_symbol s lex cls fs).symbol_table := by
  unfold add_symbol
  split
  · split
    · simp only []
      rw [sym_pairs_map_update]
      exact fun p hp => hp
    · exact fun p hp => hp
  · simp only [sym_pairs, List.map_append]
    exact fun p hp => List.mem_append.mpr (Or.inl hp)

theorem add_symbol_pairs_sub (s : ScanState) (lex : String) (cls : TokType) (fs : Option Nat) :
    sym_pairs (add_symbol s lex cls fs).symbol_table
      ⊆ sym_pairs s.symbol_table ++ [(lex, cls)] := by
  unfold add_symbol
  split
  · split
    · simp only []
      rw [sym_pairs_map_update]
      exact fun p hp => List.mem_append.mpr (Or.inl hp)
    · exact fun p hp => List.mem_append.mpr (Or.inl hp)
  · simp only [sym_pairs, List.map_append]
    exact fun p hp => hp

theorem add_symbol_id_mem (s : ScanState) (lex : String) (fs : Option Nat)
    (hcls : ClsInv s.symbol_table) (hk : lex ∉ KEYWORDS) :
    (lex, TokType.ID) ∈ sym_pairs (add_symbol s lex TokType.ID fs).symbol_table := by
  unfold add_symbol
  split
  · rename_i e' he'
    have hmem : e' ∈ s.symbol_table := List.mem_of_find?_eq_some he'
    have hlex : e'.lexeme = lex := by
      have := List.find?_some he'
      rwa [beq_iff_eq] at this
    have hid : e'.cls = TokType.ID := by
      rcases (hcls e' hmem).2 with h1 | h1
      · exact absurd (hlex ▸ (hcls e' hmem).1 h1) hk
      · exact h1
    split
    · simp only []
      rw [sym_pairs_map_update]
      simp only [sym_pairs, List.mem_map]
      exact ⟨e', hmem, by rw [hlex, hid]⟩
    · simp only [sym_pairs, List.mem_map]
      exact ⟨e', hmem, by rw [hlex, hid]⟩
  · simp only [sym_pairs, List.map_append]
    exact List.mem_append.mpr (Or.inr (by simp))

theorem remove_id_pairs_sub (s : ScanState) (lex : String) :
    sym_pairs (remove_id_from_symbol_table_if_present s lex).symbol_table
      ⊆ sym_pairs s.symbol_table := by
  intro p hp
  simp only [remove_id_from_symbol_table_if_present, sym_pairs, List.mem_map] at hp ⊢
  obtain ⟨e, he, heq⟩ := hp
  exact ⟨e, List.mem_of_mem_filter he, heq⟩

theorem remove_id_pairs_out (s : ScanState) (lex : String) :
    (lex, TokType.ID) ∉
      sym_pairs (remove_id_from_symbol_table_if_present s lex).symbol_table := by
  intro hp
  simp only [remove_id_from_symbol_table_if_present, sym_pairs, List.mem_map] at hp
  obtain ⟨e, he, heq⟩ := hp
  have h1 : e.lexeme = lex := congrArg Prod.fst heq
  have h2 : e.cls = TokType.ID := congrArg Prod.snd heq
  have := List.of_mem_filter he
  rw [h1, h2] at this
  simp at this

/-! ## Per-branch lemmas: symbol table, retraction flag, last token -/

theorem stray_step_state (s : ScanState) :
    (stray_step s).st.symbol_table = s.symbol_table ∧
    (stray_step s).st.remove_flag = s.remove_flag ∧
    (stray_step s).st.last_token = none := by
  simp [stray_step, StepRes.st, log_error]

theorem slash_step_state (s : ScanState) :
    (slash_step s).st.symbol_table = s.symbol_table ∧
    (slash_step s).st.remove_flag = s.remove_flag := by
  unfold slash_step
  dsimp only
  split
  · simp [StepRes.st]
  · split
    · split <;> simp [StepRes.st, log_error]
    · simp [StepRes.st]

theorem slash_step_again_lt (s : ScanState) (s0 : ScanState)
    (h : slash_step s = .again s0) : s0.last_token = none := by
  unfold slash_step at h
  dsimp only at h
  split at h
  · injection h with h
    subst h
    rfl
  · split at h
    · split at h
      · injection h with h
        subst h
        rfl
      · cases h
    · cases h

theorem bad_number_step_state (s : ScanState) (ln : Nat) (th : String) :
    (bad_number_step s ln th).st.symbol_table = s.symbol_table ∧
    (bad_number_step s ln th).st.remove_flag = s.remove_flag ∧
    (bad_number_step s ln th).st.last_token = none := by
  unfold bad_number_step
  dsimp only
  split <;> simp [StepRes.st, panic_consume_until_token_start, log_error, set_last_error]

theorem number_step_state (s : ScanState) (c : Char) :
    (number_step s c).st.symbol_table = s.symbol_table ∧
    (number_step s c).st.remove_flag = s.remove_flag := by
  unfold number_step
  dsimp only
  split
  · rw [(bad_number_step_state _ _ _).1, (bad_number_step_state _ _ _).2.1]
    simp
  · split
    · rw [(bad_number_step_state _ _ _).1, (bad_number_step_state _ _ _).2.1]
      simp
    · simp [StepRes.st]

theorem number_step_again_lt (s : ScanState) (c : Char) (s0 : ScanState)
    (h : number_step s c = .again s0) : s0.last_token = none := by
  unfold number_step at h
  dsimp only at h
  split at h
  · have h1 := (bad_number_step_state (consume_while isIdentChar s.advance).2 s.lineno
      (String.mk (c :: (consume_while isIdentChar s.advance).1))).2.2
    rw [h] at h1
    exact h1
  · split at h
    · have h2 := (bad_number_step_state
        (consume_while isIdentChar (consume_while isDigitC s.advance).2).2 s.lineno
        (String.mk (c :: (consume_while isDigitC s.advance).1)
          ++ String.mk (consume_while isIdentChar (consume_while isDigitC s.advance).2).1)).2.2
      rw [h] at h2
      exact h2
    · cases h

theorem eq_step_state (s : ScanState) :
    (eq_step s).st.symbol_table = s.symbol_table ∧
    (eq_step s).st.remove_flag = s.remove_flag := by
  unfold eq_step
  dsimp only
  split <;> simp [StepRes.st]

theorem sym_step_state (s : ScanState) (c : Char) :
    (sym_step s c).st.symbol_table = s.symbol_table ∧
    (sym_step s c).st.remove_flag = s.remove_flag := by
  simp [sym_step, StepRes.st]

theorem illegal_log_step_state (s2 : ScanState) (ln : Nat) (th : String) :
    (illegal_log_step s2 ln th).st.symbol_table = s2.symbol_table ∧
    (illegal_log_step s2 ln th).st.remove_flag = s2.remove_flag ∧
    (illegal_log_step s2 ln th).st.last_token = none := by
  unfold illegal_log_step
  dsimp only
  split <;> simp [StepRes.st, panic_consume_until_token_start, log_error, set_last_error]

theorem ident_step_emit (s : ScanState) (t : LToken) (s0 : ScanState)
    (h : ident_step s = .emit t s0) :
    s0.symbol_table = (add_symbol (consume_while isIdentChar s).2 t.lexeme t.ttype
      (if t.ttype = TokType.ID then some s.lineno else none)).symbol_table ∧
    (t.ttype = TokType.KEYWORD ∨ (t.ttype = TokType.ID ∧ t.lexeme ∉ KEYWORDS)) ∧
    s0.remove_flag = s.remove_flag := by
  unfold ident_step at h
  dsimp only at h
  split at h
  · rename_i hkw
    injection h with ht hs
    subst ht hs
    refine ⟨by simp, Or.inl rfl, by simp [(add_symbol_fields _ _ _ _).2.2.2.2.2]⟩
  · rename_i hkw
    injection h with ht hs
    subst ht hs
    exact ⟨by simp, Or.inr ⟨rfl, hkw⟩, by simp [(add_symbol_fields _ _ _ _).2.2.2.2.2]⟩

theorem illegal_step_lt (s : ScanState) (c : Char) :
    (illegal_step s c).st.last_token = none := by
  unfold illegal_step
  dsimp only
  split <;> exact (illegal_log_step_state _ _ _).2.2

theorem illegal_step_state (s : ScanState) (c : Char) :
    ((illegal_step s c).st.remove_flag = s.remove_flag ∧
     (illegal_step s c).st.symbol_table = s.symbol_table) ∨
    (∃ la, (illegal_step s c).st.remove_flag = some la ∧
      s.last_token ≠ none ∧
      (la.1, TokType.ID) ∉ sym_pairs (illegal_step s c).st.symbol_table ∧
      sym_pairs (illegal_step s c).st.symbol_table ⊆ sym_pairs s.symbol_table) := by
  unfold illegal_step
  dsimp only
  split
  · rename_i la hadj
    refine Or.inr ⟨la, ?_, ?_, ?_, ?_⟩
    · rw [(illegal_log_step_state _ _ _).2.1]
      simp [remove_id_from_symbol_table_if_present]
    · unfold adj_check at hadj
      cases hlt : s.last_token with
      | none => rw [hlt] at hadj; cases hadj
      | some lt => simp [hlt]
    · rw [(illegal_log_step_state _ _ _).1]
      exact remove_id_pairs_out _ _
    · rw [(illegal_log_step_state _ _ _).1]
      intro p hp
      have h1 := remove_id_pairs_sub { (consume_while isIdentChar s.advance).2 with
        remove_flag := some la } la.1 hp
      simpa using h1
  · refine Or.inl ⟨?_, ?_⟩
    · rw [(illegal_log_step_state _ _ _).2.1]
      simp
    · rw [(illegal_log_step_state _ _ _).1]
      simp

theorem ident_step_kwinv (s : ScanState) (h : KwInv s.symbol_table) :
    KwInv (ident_step s).st.symbol_table := by
  unfold ident_step
  dsimp only
  split <;>
  · simp only [StepRes.st]
    refine KwInv_add_symbol _ _ _ _ ?_
    rw [consume_while_symbol_table]
    exact h

theorem ident_step_clsinv (s : ScanState) (h : ClsInv s.symbol_table) :
    ClsInv (ident_step s).st.symbol_table := by
  unfold ident_step
  dsimp only
  split
  · rename_i hkw
    simp only [StepRes.st]
    refine ClsInv_add_symbol _ _ _ _ (Or.inr ⟨rfl, hkw⟩) ?_
    rw [consume_while_symbol_table]
    exact h
  · simp only [StepRes.st]
    refine ClsInv_add_symbol _ _ _ _ (Or.inl rfl) ?_
    rw [consume_while_symbol_table]
    exact h

theorem step_kwinv (s : ScanState) (c : Char) (h : KwInv s.symbol_table) :
    KwInv (step s c).st.symbol_table := by
  unfold step
  split_ifs
  · rw [(stray_step_state s).1]; exact h
  · simp only [StepRes.st, advance_symbol_table]; exact h
  · rw [(slash_step_state s).1]; exact h
  · exact ident_step_kwinv s h
  · rw [(number_step_state s c).1]; exact h
  · rw [(eq_step_state s).1]; exact h
  · rw [(sym_step_state s c).1]; exact h
  · rcases illegal_step_state s c with ⟨-, htab⟩ | ⟨la, -, -, -, hsub⟩
    · rw [htab]; exact h
    · -- adjacent: the table is a filtered version; keywords survive
      unfold illegal_step
      dsimp only
      split
      · rw [(illegal_log_step_state _ _ _).1]
        refine KwInv_remove_id _ _ ?_
        simp only [consume_while_symbol_table, advance_symbol_table]
        intro kw hkw
        have h0 := h kw hkw
        exact h0
      · rw [(illegal_log_step_state _ _ _).1]
        simp only [consume_while_symbol_table, advance_symbol_table]
        exact h

theorem step_clsinv (s : ScanState) (c : Char) (h : ClsInv s.symbol_table) :
    ClsInv (step s c).st.symbol_table := by
  unfold step
  split_ifs
  · rw [(stray_step_state s).1]; exact h
  · simp only [StepRes.st, advance_symbol_table]; exact h
  · rw [(slash_step_state s).1]; exact h
  · exact ident_step_clsinv s h
  · rw [(number_step_state s c).1]; exact h
  · rw [(eq_step_state s).1]; exact h
  · rw [(sym_step_state s c).1]; exact h
  · unfold illegal_step
    dsimp only
    split
    · rw [(illegal_log_step_state _ _ _).1]
      refine ClsInv_remove_id _ _ ?_
      simp only [consume_while_symbol_table, advance_symbol_table]
      exact h
    · rw [(illegal_log_step_state _ _ _).1]
      simp only [consume_while_symbol_table, advance_symbol_table]
      exact h

theorem ident_step_flag (s : ScanState) : (ident_step s).st.remove_flag = s.remove_flag := by
  unfold ident_step
  dsimp only
  split <;> simp [StepRes.st, (add_symbol_fields _ _ _ _).2.2.2.2.2]

theorem ident_step_pairs_super (s : ScanState) :
    sym_pairs s.symbol_table ⊆ sym_pairs (ident_step s).st.symbol_table := by
  unfold ident_step
  dsimp only
  split <;>
  · simp only [StepRes.st]
    intro p hp
    refine add_symbol_pairs_super _ _ _ _ ?_
    rw [consume_while_symbol_table]
    exact hp

theorem ident_step_pairs_sub (s : ScanState) :
    sym_pairs (ident_step s).st.symbol_table
      ⊆ sym_pairs s.symbol_table ++ emitPairs (ident_step s) := by
  unfold ident_step
  dsimp only
  split <;>
  · simp only [StepRes.st, emitPairs]
    intro p hp
    have h1 := add_symbol_pairs_sub _ _ _ _ hp
    rwa [consume_while_symbol_table] at h1

theorem step_pairs_sub (s : ScanState) (c : Char) :
    sym_pairs (step s c).st.symbol_table
      ⊆ sym_pairs s.symbol_table ++ emitPairs (step s c) := by
  unfold step
  split_ifs
  · rw [(stray_step_state s).1]
    exact fun p hp => List.mem_append.mpr (Or.inl hp)
  · simp only [StepRes.st, advance_symbol_table]
    exact fun p hp => List.mem_append.mpr (Or.inl hp)
  · rw [(slash_step_state s).1]
    exact fun p hp => List.mem_append.mpr (Or.inl hp)
  · exact ident_step_pairs_sub s
  · rw [(number_step_state s c).1]
    exact fun p hp => List.mem_append.mpr (Or.inl hp)
  · rw [(eq_step_state s).1]
    exact fun p hp => List.mem_append.mpr (Or.inl hp)
  · rw [(sym_step_state s c).1]
    exact fun p hp => List.mem_append.mpr (Or.inl hp)
  · rcases illegal_step_state s c with ⟨-, htab⟩ | ⟨la, -, -, -, hsub⟩
    · rw [htab]
      exact fun p hp => List.mem_append.mpr (Or.inl hp)
    · exact fun p hp => List.mem_append.mpr (Or.inl (hsub hp))

theorem step_flag_none (s : ScanState) (c : Char)
    (h : (step s c).st.remove_flag = none) :
    s.remove_flag = none ∧
      sym_pairs s.symbol_table ⊆ sym_pairs (step s c).st.symbol_table := by
  revert h
  unfold step
  split_ifs <;> intro h
  · rw [(stray_step_state s).2.1] at h
    rw [(stray_step_state s).1]
    exact ⟨h, fun p hp => hp⟩
  · simp only [StepRes.st, advance_remove_flag] at h
    simp only [StepRes.st, advance_symbol_table]
    exact ⟨h, fun p hp => hp⟩
  · rw [(slash_step_state s).2] at h
    rw [(slash_step_state s).1]
    exact ⟨h, fun p hp => hp⟩
  · rw [ident_step_flag] at h
    exact ⟨h, ident_step_pairs_super s⟩
  · rw [(number_step_state s c).2] at h
    rw [(number_step_state s c).1]
    exact ⟨h, fun p hp => hp⟩
  · rw [(eq_step_state s).2] at h
    rw [(eq_step_state s).1]
    exact ⟨h, fun p hp => hp⟩
  · rw [(sym_step_state s c).2] at h
    rw [(sym_step_state s c).1]
    exact ⟨h, fun p hp => hp⟩
  · rcases illegal_step_state s c with ⟨hfl, htab⟩ | ⟨la, hfl, -, -, -⟩
    · rw [hfl] at h
      rw [htab]
      exact ⟨h, fun p hp => hp⟩
    · rw [hfl] at h
      cases h

theorem step_flag_set (s : ScanState) (c : Char) (la : String × Nat)
    (hn : s.remove_flag = none) (h : (step s c).st.remove_flag = some la) :
    (la.1, TokType.ID) ∉ sym_pairs (step s c).st.symbol_table := by
  revert h
  unfold step
  split_ifs <;> intro h
  · rw [(stray_step_state s).2.1, hn] at h
    cases h
  · simp only [StepRes.st, advance_remove_flag, hn] at h
    cases h
  · rw [(slash_step_state s).2, hn] at h
    cases h
  · rw [ident_step_flag, hn] at h
    cases h
  · rw [(number_step_state s c).2, hn] at h
    cases h
  · rw [(eq_step_state s).2, hn] at h
    cases h
  · rw [(sym_step_state s c).2, hn] at h
    cases h
  · rcases illegal_step_state s c with ⟨hfl, -⟩ | ⟨la', hfl, -, hout, -⟩
    · rw [hfl, hn] at h
      cases h
    · rw [hfl] at h
      injection h with h
      subst h
      exact hout

theorem step_again_lt_none (s : ScanState) (c : Char) (s0 : ScanState)
    (hlt : s.last_token = none) (h : step s c = .again s0) : s0.last_token = none := by
  revert h
  unfold step
  split_ifs <;> intro h
  · have h1 := (stray_step_state s).2.2
    rw [h] at h1
    exact h1
  · injection h with h
    subst h
    simpa using hlt
  · exact slash_step_again_lt s s0 h
  · exact absurd h (by unfold ident_step; dsimp only; split <;> (intro hx; cases hx))
  · exact number_step_again_lt s c s0 h
  · exact absurd h (by unfold eq_step; dsimp only; split <;> (intro hx; cases hx))
  · exact absurd h (by unfold sym_step; dsimp only; intro hx; cases hx)
  · have h1 := illegal_step_lt s c
    rw [h] at h1
    exact h1

theorem step_lt_none_flag (s : ScanState) (c : Char) (hlt : s.last_token = none) :
    (step s c).st.remove_flag = s.remove_flag := by
  unfold step
  split_ifs
  · exact (stray_step_state s).2.1
  · simp [StepRes.st]
  · exact (slash_step_state s).2
  · exact ident_step_flag s
  · exact (number_step_state s c).2
  · exact (eq_step_state s).2
  · exact (sym_step_state s c).2
  · rcases illegal_step_state s c with ⟨hfl, -⟩ | ⟨la, -, hne, -, -⟩
    · exact hfl
    · exact absurd hlt hne

theorem step_emit_id_mem (s : ScanState) (c : Char) (t : LToken) (s0 : ScanState)
    (h : step s c = .emit t s0) (hid : t.ttype = TokType.ID)
    (hcls : ClsInv s.symbol_table) :
    (t.lexeme, TokType.ID) ∈ sym_pairs s0.symbol_table := by
  unfold step at h
  split at h
  · exact absurd h (by unfold stray_step; dsimp only; intro hx; cases hx)
  · split at h
    · exact absurd h (by intro hx; cases hx)
    · split at h
      · unfold slash_step at h
        dsimp only at h
        split at h
        · cases h
        · split at h
          · split at h
            · cases h
            · injection h with ht hs
              subst ht
              simp at hid
          · injection h with ht hs
            subst ht
            simp at hid
      · split at h
        · unfold ident_step at h
          dsimp only at h
          split at h
          · injection h with ht hs
            subst ht
            simp at hid
          · rename_i hkw
            injection h with ht hs
            subst ht hs
            have hmem := add_symbol_id_mem (consume_while isIdentChar s).2
              (String.mk (consume_while isIdentChar s).1) (some s.lineno)
              (by rw [consume_while_symbol_table]; exact hcls) hkw
            exact hmem
        · split at h
          · unfold number_step at h
            dsimp only at h
            split at h
            · exact absurd h
                (by unfold bad_number_step; dsimp only; split <;> (intro hx; cases hx))
            · split at h
              · exact absurd h
                  (by unfold bad_number_step; dsimp only; split <;> (intro hx; cases hx))
              · injection h with ht hs
                subst ht
                simp at hid
          · split at h
            · unfold eq_step at h
              dsimp only at h
              split at h <;>
              · injection h with ht hs
                subst ht
                simp at hid
            · split at h
              · unfold sym_step at h
                dsimp only at h
                injection h with ht hs
                subst ht
                simp at hid
              · exact absurd h (by
                  unfold illegal_step illegal_log_step
                  dsimp only
                  split <;> split <;> (intro hx; cases hx))

theorem step_flag_set_lt (s : ScanState) (c : Char) (la : String × Nat)
    (hn : s.remove_flag = none) (h : (step s c).st.remove_flag = some la) :
    (step s c).st.last_token = none := by
  revert h
  unfold step
  split_ifs <;> intro h
  · rw [(stray_step_state s).2.1, hn] at h
    cases h
  · simp only [StepRes.st, advance_remove_flag, hn] at h
    cases h
  · rw [(slash_step_state s).2, hn] at h
    cases h
  · rw [ident_step_flag, hn] at h
    cases h
  · rw [(number_step_state s c).2, hn] at h
    cases h
  · rw [(eq_step_state s).2, hn] at h
    cases h
  · rw [(sym_step_state s c).2, hn] at h
    cases h
  · exact illegal_step_lt s c

theorem gntf_noadj (fuel : Nat) (s : ScanState) (t : LToken) (s' : ScanState)
    (h : get_next_token_fuel fuel s = some (t, s')) (hlt : s.last_token = none) :
    s'.remove_flag = s.remove_flag := by
  induction fuel generalizing s with
  | zero => rw [get_next_token_fuel] at h; cases h
  | succ fuel ih =>
    rw [get_next_token_fuel] at h
    split at h
    · rename_i c hg
      split at h
      · rename_i t0 s0 hs
        injection h with h1
        injection h1 with h1 h2
        subst h1 h2
        have hf := step_lt_none_flag s c hlt
        rw [hs] at hf
        exact hf
      · rename_i s0 hs
        have hlt0 := step_again_lt_none s c s0 hlt hs
        have hf := step_lt_none_flag s c hlt
        rw [hs] at hf
        rw [ih s0 h hlt0]
        exact hf
    · injection h with h1
      injection h1 with h1 h2
      subst h1 h2
      rfl

theorem gntf_symtab (fuel : Nat) (s : ScanState) (t : LToken) (s' : ScanState)
    (h : get_next_token_fuel fuel s = some (t, s')) :
    (KwInv s.symbol_table → KwInv s'.symbol_table) ∧
    (ClsInv s.symbol_table → ClsInv s'.symbol_table) ∧
    sym_pairs s'.symbol_table ⊆ sym_pairs s.symbol_table ++ [(t.lexeme, t.ttype)] ∧
    (t.ttype = TokType.ID → ClsInv s.symbol_table →
      (t.lexeme, TokType.ID) ∈ sym_pairs s'.symbol_table) ∧
    (s'.remove_flag = none → s.remove_flag = none ∧
      sym_pairs s.symbol_table ⊆ sym_pairs s'.symbol_table) ∧
    (s.remove_flag = none → ∀ la, s'.remove_flag = some la →
      (la.1, TokType.ID) ∉ sym_pairs s'.symbol_table ∨
        (t.ttype = TokType.ID ∧ t.lexeme = la.1)) := by
  induction fuel generalizing s with
  | zero => rw [get_next_token_fuel] at h; cases h
  | succ fuel ih =>
    rw [get_next_token_fuel] at h
    split at h
    · rename_i c hg
      split at h
      · rename_i t0 s0 hs
        injection h with h1
        injection h1 with h1 h2
        subst h1 h2
        have hkw := step_kwinv s c
        have hcl := step_clsinv s c
        have hps := step_pairs_sub s c
        have hfn := step_flag_none s c
        have hfs := step_flag_set s c
        rw [hs] at hkw hcl hps hfn hfs
        simp only [StepRes.st, emitPairs] at hkw hcl hps hfn hfs
        refine ⟨hkw, hcl, hps, ?_, hfn, ?_⟩
        · intro hid hcls
          exact step_emit_id_mem s c _ _ hs hid hcls
        · intro hn la hla
          exact Or.inl (hfs la hn hla)
      · rename_i s0 hs
        have hkw := step_kwinv s c
        have hcl := step_clsinv s c
        have hps := step_pairs_sub s c
        have hfn := step_flag_none s c
        have hfs := step_flag_set s c
        have hfsl := step_flag_set_lt s c
        rw [hs] at hkw hcl hps hfn hfs hfsl
        simp only [StepRes.st, emitPairs, List.append_nil] at hkw hcl hps hfn hfs hfsl
        obtain ⟨ih1, ih2, ih3, ih4, ih5, ih6⟩ := ih s0 h
        refine ⟨fun hk => ih1 (hkw hk), fun hc => ih2 (hcl hc), ?_, ?_, ?_, ?_⟩
        · intro p hp
          rcases List.mem_append.mp (ih3 hp) with h1 | h1
          · exact List.mem_append.mpr (Or.inl (hps h1))
          · exact List.mem_append.mpr (Or.inr h1)
        · intro hid hcls
          exact ih4 hid (hcl hcls)
        · intro hn
          obtain ⟨hn0, hsub0⟩ := ih5 hn
          obtain ⟨hns, hsubs⟩ := hfn hn0
          exact ⟨hns, fun p hp => hsub0 (hsubs hp)⟩
        · intro hn la hla
          cases h0 : s0.remove_flag with
          | none => exact ih6 h0 la hla
          | some la0 =>
            have hout := hfs la0 hn h0
            have hlt0 := hfsl la0 hn h0
            have hpar := gntf_noadj fuel s0 t s' h hlt0
            rw [h0] at hpar
            rw [hpar] at hla
            injection hla with hla
            subst hla
            by_cases hmem : (la0.1, TokType.ID) ∈ sym_pairs s'.symbol_table
            · rcases List.mem_append.mp (ih3 hmem) with h1 | h1
              · exact absurd h1 hout
              · simp only [List.mem_singleton, Prod.mk.injEq] at h1
                exact Or.inr ⟨h1.2.symm ▸ rfl, h1.1.symm⟩
            · exact Or.inl hmem
    · injection h with h1
      injection h1 with h1 h2
      subst h1 h2
      refine ⟨fun hk => hk, fun hc => hc, fun p hp => List.mem_append.mpr (Or.inl hp),
        ?_, fun hn => ⟨hn, fun p hp => hp⟩, ?_⟩
      · intro hid
        simp at hid
      · intro hn la hla
        simp only [] at hla
        rw [hn] at hla
        cases hla

/-! ## Lemmas about the grouped token output -/

theorem mem_all_toks_iff (lines : LinesOut) (y : TokType × String) :
    y ∈ all_toks lines ↔ ∃ e ∈ lines, y ∈ e.2 := by
  simp only [all_toks, List.mem_flatten, List.mem_map]
  constructor
  · rintro ⟨l, ⟨e, he, rfl⟩, hy⟩
    exact ⟨e, he, hy⟩
  · rintro ⟨e, he, hy⟩
    exact ⟨e.2, ⟨e, he, rfl⟩, hy⟩

theorem mem_remove_first_of_ne (l : List (TokType × String)) (x y : TokType × String)
    (hy : y ∈ l) (hne : y ≠ x) : y ∈ remove_first l x := by
  induction l with
  | nil => cases hy
  | cons a rest ih =>
    rw [remove_first]
    rcases List.mem_cons.mp hy with rfl | hy'
    · split
      · rename_i hax
        exact absurd hax hne
      · exact List.mem_cons_self _ _
    · split
      · exact hy'
      · exact List.mem_cons_of_mem _ (ih hy')

theorem mem_remove_recent_of_ne (l : List (TokType × String)) (lex : String)
    (y : TokType × String) (hy : y ∈ l) (hne : y ≠ (TokType.ID, lex)) :
    y ∈ remove_recent l lex := by
  unfold remove_recent
  rw [List.mem_reverse]
  exact mem_remove_first_of_ne _ _ _ (List.mem_reverse.mpr hy) hne

theorem entry_unique (lines : LinesOut) (hnd : (lines.map Prod.fst).Nodup)
    (p q : Nat × List (TokType × String)) (hp : p ∈ lines) (hq : q ∈ lines)
    (hk : p.1 = q.1) : p = q := by
  induction lines with
  | nil => cases hp
  | cons a rest ih =>
    rw [List.map_cons, List.nodup_cons] at hnd
    rcases List.mem_cons.mp hp with rfl | hp' <;> rcases List.mem_cons.mp hq with rfl | hq'
    · rfl
    · exact absurd (hk ▸ List.mem_map_of_mem Prod.fst hq') hnd.1
    · exact absurd (hk ▸ List.mem_map_of_mem Prod.fst hp') hnd.1
    · exact ih hnd.2 hp' hq'

theorem all_toks_retract_mem (lines : LinesOut) (hnd : (lines.map Prod.fst).Nodup)
    (ln : Nat) (lex : String) (y : TokType × String)
    (hy : y ∈ all_toks lines) (hne : y ≠ (TokType.ID, lex)) :
    y ∈ all_toks (retract_from_lines lines ln lex) := by
  obtain ⟨e, he, hye⟩ := (mem_all_toks_iff lines y).mp hy
  unfold retract_from_lines
  split
  · exact (mem_all_toks_iff _ y).mpr ⟨e, he, hye⟩
  · rename_i p hfind
    have hpmem : p ∈ lines := List.mem_of_find?_eq_some hfind
    have hpln : p.1 = ln := by
      have := List.find?_some hfind
      simpa using this
    split
    · split
      · rename_i hmem hemp
        refine (mem_all_toks_iff _ y).mpr ⟨e, List.mem_filter.mpr ⟨he, ?_⟩, hye⟩
        by_cases hk : e.1 = ln
        · have hep : e = p := entry_unique lines hnd e p he hpmem (by rw [hk, hpln])
          subst hep
          have hy2 : y ∈ remove_recent e.2 lex := mem_remove_recent_of_ne _ _ _ hye hne
          rw [hemp] at hy2
          cases hy2
        · simpa using hk
      · rename_i hmem hemp
        by_cases hk : e.1 = ln
        · have hep : e = p := entry_unique lines hnd e p he hpmem (by rw [hk, hpln])
          refine (mem_all_toks_iff _ y).mpr ⟨(e.1, remove_recent p.2 lex), ?_, ?_⟩
          · have heq : (fun q => if q.1 == ln then (q.1, remove_recent p.2 lex) else q) e
                = (e.1, remove_recent p.2 lex) := by
              dsimp only
              rw [if_pos (show (e.1 == ln) = true by simpa using hk)]
            simpa only [heq] using List.mem_map_of_mem
              (fun q => if q.1 == ln then (q.1, remove_recent p.2 lex) else q) he
          · rw [hep]
            exact mem_remove_recent_of_ne _ _ _ (hep ▸ hye) hne
        · refine (mem_all_toks_iff _ y).mpr ⟨e, ?_, hye⟩
          have heq : (fun q => if q.1 == ln then (q.1, remove_recent p.2 lex) else q) e = e := by
            dsimp only
            rw [if_neg (show ¬(e.1 == ln) = true by simpa using hk)]
          simpa only [heq] using List.mem_map_of_mem
            (fun q => if q.1 == ln then (q.1, remove_recent p.2 lex) else q) he
    · exact (mem_all_toks_iff _ y).mpr ⟨e, he, hye⟩

theorem nodup_retract (lines : LinesOut) (hnd : (lines.map Prod.fst).Nodup)
    (ln : Nat) (lex : String) :
    ((retract_from_lines lines ln lex).map Prod.fst).Nodup := by
  unfold retract_from_lines
  split
  · exact hnd
  · rename_i p hfind
    split
    · split
      · exact ((List.filter_sublist lines).map Prod.fst).nodup hnd
      · have heq : (lines.map (fun q => if q.1 == ln then (q.1, remove_recent p.2 lex) else q)).map
            Prod.fst = lines.map Prod.fst := by
          rw [List.map_map]
          apply List.map_congr_left
          intro a _
          by_cases hk : (a.1 == ln) = true
          · simp only [Function.comp_apply, if_pos hk]
          · simp only [Function.comp_apply, if_neg hk]
        rw [heq]
        exact hnd
    · exact hnd

theorem nodup_append_tok (lines : LinesOut) (hnd : (lines.map Prod.fst).Nodup)
    (ln : Nat) (tk : TokType × String) :
    ((append_tok lines ln tk).map Prod.fst).Nodup := by
  unfold append_tok
  split
  · have heq : (lines.map (fun q => if q.1 == ln then (q.1, q.2 ++ [tk]) else q)).map Prod.fst
        = lines.map Prod.fst := by
      rw [List.map_map]
      apply List.map_congr_left
      intro a _
      by_cases hk : (a.1 == ln) = true
      · simp only [Function.comp_apply, if_pos hk]
      · simp only [Function.comp_apply, if_neg hk]
    rw [heq]
    exact hnd
  · rename_i hhas
    rw [List.map_append]
    simp only [List.map_cons, List.map_nil]
    rw [List.nodup_append]
    refine ⟨hnd, List.nodup_singleton _, ?_⟩
    intro a ha hmem
    simp only [List.mem_singleton] at hmem
    subst hmem
    simp only [List.mem_map] at ha
    obtain ⟨e, he, hfst⟩ := ha
    unfold lines_has at hhas
    rw [Bool.not_eq_true] at hhas
    have hn := List.find?_eq_none.mp (by
      cases hq : List.find? (fun p => p.1 == a) lines with
      | none => rfl
      | some v => rw [hq] at hhas; simp at hhas)
    exact hn e he (by simpa using hfst)

theorem mem_all_toks_append_self (lines : LinesOut) (ln : Nat) (tk : TokType × String) :
    tk ∈ all_toks (append_tok lines ln tk) := by
  unfold append_tok
  split
  · rename_i hhas
    unfold lines_has at hhas
    rw [Option.isSome_iff_exists] at hhas
    obtain ⟨p, hp⟩ := hhas
    have hpmem : p ∈ lines := List.mem_of_find?_eq_some hp
    have hpln : (p.1 == ln) = true := by
      have h0 := List.find?_some hp
      simpa using h0
    refine (mem_all_toks_iff _ tk).mpr ⟨(p.1, p.2 ++ [tk]), ?_, by simp⟩
    have : (fun q => if q.1 == ln then (q.1, q.2 ++ [tk]) else q) p = (p.1, p.2 ++ [tk]) := by
      simp [hpln]
    simpa only [this] using List.mem_map_of_mem
      (fun q => if q.1 == ln then (q.1, q.2 ++ [tk]) else q) hpmem
  · refine (mem_all_toks_iff _ tk).mpr ⟨(ln, [tk]), ?_, by simp⟩
    exact List.mem_append.mpr (Or.inr (by simp))

theorem mem_all_toks_append_of_mem (lines : LinesOut) (ln : Nat) (tk y : TokType × String)
    (hy : y ∈ all_toks lines) : y ∈ all_toks (append_tok lines ln tk) := by
  obtain ⟨e, he, hye⟩ := (mem_all_toks_iff lines y).mp hy
  unfold append_tok
  split
  · by_cases hk : (e.1 == ln) = true
    · refine (mem_all_toks_iff _ y).mpr ⟨(e.1, e.2 ++ [tk]), ?_, by simp [hye]⟩
      have : (fun q => if q.1 == ln then (q.1, q.2 ++ [tk]) else q) e = (e.1, e.2 ++ [tk]) := by
        simp [hk]
      simpa only [this] using List.mem_map_of_mem
        (fun q => if q.1 == ln then (q.1, q.2 ++ [tk]) else q) he
    · refine (mem_all_toks_iff _ y).mpr ⟨e, ?_, hye⟩
      have : (fun q => if q.1 == ln then (q.1, q.2 ++ [tk]) else q) e = e := by
        simp only [Bool.not_eq_true] at hk
        simp [hk]
      simpa only [this] using List.mem_map_of_mem
        (fun q => if q.1 == ln then (q.1, q.2 ++ [tk]) else q) he
  · exact (mem_all_toks_iff _ y).mpr ⟨e, List.mem_append.mpr (Or.inl he), hye⟩

theorem mem_all_toks_append_elim (lines : LinesOut) (ln : Nat) (tk y : TokType × String)
    (hy : y ∈ all_toks (append_tok lines ln tk)) : y ∈ all_toks lines ∨ y = tk := by
  obtain ⟨e, he, hye⟩ := (mem_all_toks_iff _ y).mp hy
  revert he
  unfold append_tok
  split
  · intro he
    simp only [List.mem_map] at he
    obtain ⟨e0, he0, heq⟩ := he
    by_cases hk : (e0.1 == ln) = true
    · rw [if_pos hk] at heq
      subst heq
      simp only [] at hye
      rcases List.mem_append.mp hye with h1 | h1
      · exact Or.inl ((mem_all_toks_iff _ y).mpr ⟨e0, he0, h1⟩)
      · simp only [List.mem_singleton] at h1
        exact Or.inr h1
    · rw [if_neg hk] at heq
      subst heq
      exact Or.inl ((mem_all_toks_iff _ y).mpr ⟨e0, he0, hye⟩)
  · intro he
    rcases List.mem_append.mp he with h1 | h1
    · exact Or.inl ((mem_all_toks_iff _ y).mpr ⟨e, h1, hye⟩)
    · simp only [List.mem_singleton] at h1
      subst h1
      simp only [] at hye
      simp only [List.mem_singleton] at hye
      exact Or.inr hye

/-! ## Run-level symbol-table invariants -/

theorem get_next_token_symtab (s : ScanState) :
    (KwInv s.symbol_table → KwInv (get_next_token s).2.symbol_table) ∧
    (ClsInv s.symbol_table → ClsInv (get_next_token s).2.symbol_table) ∧
    sym_pairs (get_next_token s).2.symbol_table ⊆ sym_pairs s.symbol_table
      ++ [((get_next_token s).1.lexeme, (get_next_token s).1.ttype)] ∧
    ((get_next_token s).1.ttype = TokType.ID → ClsInv s.symbol_table →
      ((get_next_token s).1.lexeme, TokType.ID) ∈ sym_pairs (get_next_token s).2.symbol_table) ∧
    ((get_next_token s).2.remove_flag = none → s.remove_flag = none ∧
      sym_pairs s.symbol_table ⊆ sym_pairs (get_next_token s).2.symbol_table) ∧
    (s.remove_flag = none → ∀ la, (get_next_token s).2.remove_flag = some la →
      (la.1, TokType.ID) ∉ sym_pairs (get_next_token s).2.symbol_table ∨
        ((get_next_token s).1.ttype = TokType.ID ∧ (get_next_token s).1.lexeme = la.1)) := by
  have h := get_next_token_eq_fuel s
  have h2 : get_next_token_fuel (s.src.length - s.pos + 1) s
      = some ((get_next_token s).1, (get_next_token s).2) := by
    rw [Prod.mk.eta]
    exact h
  exact gntf_symtab _ s (get_next_token s).1 (get_next_token s).2 h2

theorem run_fuel_retr_prefix (fuel : Nat) (s : ScanState) (lines : LinesOut)
    (retr : List (String × Nat)) (res : RunRes)
    (h : run_fuel fuel s lines retr = some res) :
    ∃ tail, res.retractions = retr ++ tail := by
  induction fuel generalizing s lines retr with
  | zero => rw [run_fuel] at h; cases h
  | succ fuel ih =>
    rw [run_fuel] at h
    dsimp only at h
    split at h
    · rename_i la hla
      split at h
      · injection h with h1
        subst h1
        exact ⟨[la], rfl⟩
      · obtain ⟨tail, htail⟩ := ih _ _ _ h
        exact ⟨[la] ++ tail, by rw [htail, List.append_assoc]⟩
    · split at h
      · injection h with h1
        subst h1
        exact ⟨[], by simp⟩
      · exact ih _ _ _ h

theorem run_fuel_symtab (fuel : Nat) (s : ScanState) (lines : LinesOut)
    (retr : List (String × Nat)) (res : RunRes)
    (h : run_fuel fuel s lines retr = some res)
    (hflag : s.remove_flag = none)
    (hnd : (lines.map Prod.fst).Nodup)
    (hkw : KwInv s.symbol_table) (hcls : ClsInv s.symbol_table)
    (hA : ∀ p ∈ sym_pairs s.symbol_table, p.2 = TokType.ID →
      (TokType.ID, p.1) ∈ all_toks lines)
    (hB : retr = [] → ∀ q ∈ all_toks lines, q.1 = TokType.ID →
      (q.2, TokType.ID) ∈ sym_pairs s.symbol_table) :
    KwInv res.symtab ∧ ClsInv res.symtab ∧
    (∀ p ∈ sym_pairs res.symtab, p.2 = TokType.ID →
      (TokType.ID, p.1) ∈ all_toks res.lines) ∧
    (res.retractions = [] → ∀ q ∈ all_toks res.lines, q.1 = TokType.ID →
      (q.2, TokType.ID) ∈ sym_pairs res.symtab) := by
  induction fuel generalizing s lines retr with
  | zero => rw [run_fuel] at h; cases h
  | succ fuel ih =>
    obtain ⟨g1, g2, g3, g4, g5, g6⟩ := get_next_token_symtab s
    rw [run_fuel] at h
    dsimp only at h
    split at h
    · -- a retraction is processed
      rename_i la hla
      have hout : (la.1, TokType.ID) ∉ sym_pairs (get_next_token s).2.symbol_table ∨
          ((get_next_token s).1.ttype = TokType.ID ∧ (get_next_token s).1.lexeme = la.1) :=
        g6 hflag la hla
      split at h
      · -- EOF with retraction
        rename_i heof
        injection h with h1
        subst h1
        refine ⟨g1 hkw, g2 hcls, ?_, ?_⟩
        · rintro ⟨p1, p2⟩ hp hpid
          simp only [] at hpid
          subst hpid
          have hout1 : (la.1, TokType.ID) ∉ sym_pairs (get_next_token s).2.symbol_table := by
            rcases hout with h1 | ⟨h1, -⟩
            · exact h1
            · rw [heof] at h1
              cases h1
          have hpne : p1 ≠ la.1 := by
            intro hcontra
            subst hcontra
            exact hout1 hp
          rcases List.mem_append.mp (g3 hp) with h1 | h1
          · refine all_toks_retract_mem lines hnd la.2 la.1 (TokType.ID, p1)
              (hA _ h1 rfl) ?_
            intro hcontra
            exact hpne (congrArg Prod.snd hcontra)
          · simp only [List.mem_singleton, Prod.mk.injEq] at h1
            rw [heof] at h1
            rcases h1 with ⟨-, h1⟩
            cases h1
        · intro hretr
          exact absurd hretr (by simp)
      · -- token with retraction, continue
        rename_i hne
        refine ih ({ (get_next_token s).2 with remove_flag := none }) _ _ h rfl
          (nodup_append_tok _ (nodup_retract lines hnd la.2 la.1) _ _)
          (g1 hkw) (g2 hcls) ?_ ?_
        · rintro ⟨p1, p2⟩ hp hpid
          simp only [] at hp hpid
          subst hpid
          by_cases hple : p1 = la.1
          · have hval : (get_next_token s).1.ttype = TokType.ID ∧
                (get_next_token s).1.lexeme = la.1 := by
              rcases hout with h1 | h1
              · exact absurd (by rw [hple] at hp; exact hp) h1
              · exact h1
            have heqtk : (TokType.ID, p1)
                = ((get_next_token s).1.ttype, (get_next_token s).1.lexeme) := by
              rw [hval.1, hval.2, hple]
            rw [heqtk]
            exact mem_all_toks_append_self _ _ _
          · rcases List.mem_append.mp (g3 hp) with h1 | h1
            · refine mem_all_toks_append_of_mem _ _ _ _ ?_
              refine all_toks_retract_mem lines hnd la.2 la.1 (TokType.ID, p1)
                (hA _ h1 rfl) ?_
              intro hcontra
              exact hple (congrArg Prod.snd hcontra)
            · simp only [List.mem_singleton, Prod.mk.injEq] at h1
              have heqtk : (TokType.ID, p1)
                  = ((get_next_token s).1.ttype, (get_next_token s).1.lexeme) := by
                rw [h1.2, h1.1]
              rw [heqtk]
              exact mem_all_toks_append_self _ _ _
        · intro hcontra
          exact absurd hcontra (by simp)
    · -- no retraction signal
      rename_i hnone
      obtain ⟨hfn, hsub⟩ := g5 hnone
      split at h
      · -- EOF, stop
        rename_i heof
        injection h with h1
        subst h1
        refine ⟨g1 hkw, g2 hcls, ?_, ?_⟩
        · rintro ⟨p1, p2⟩ hp hpid
          simp only [] at hpid
          subst hpid
          rcases List.mem_append.mp (g3 hp) with h1 | h1
          · exact hA _ h1 rfl
          · simp only [List.mem_singleton, Prod.mk.injEq] at h1
            rw [heof] at h1
            rcases h1 with ⟨-, h1⟩
            cases h1
        · intro hretr q hq hqid
          exact hsub (hB hretr q hq hqid)
      · -- token, continue
        rename_i hne
        refine ih (get_next_token s).2 _ _ h hnone (nodup_append_tok _ hnd _ _)
          (g1 hkw) (g2 hcls) ?_ ?_
        · rintro ⟨p1, p2⟩ hp hpid
          simp only [] at hpid
          subst hpid
          rcases List.mem_append.mp (g3 hp) with h1 | h1
          · exact mem_all_toks_append_of_mem _ _ _ _ (hA _ h1 rfl)
          · simp only [List.mem_singleton, Prod.mk.injEq] at h1
            have heqtk : (TokType.ID, p1)
                = ((get_next_token s).1.ttype, (get_next_token s).1.lexeme) := by
              rw [h1.2, h1.1]
            rw [heqtk]
            exact mem_all_toks_append_self _ _ _
        · intro hretr
          rintro ⟨q1, q2⟩ hq hqid
          simp only [] at hqid
          subst hqid
          rcases mem_all_toks_append_elim _ _ _ _ hq with h1 | h1
          · exact hsub (hB hretr _ h1 rfl)
          · have h2 : (get_next_token s).1.ttype = TokType.ID := (congrArg Prod.fst h1).symm
            have h3 : (get_next_token s).1.lexeme = q2 := (congrArg Prod.snd h1).symm
            rw [← h3]
            exact g4 h2 hcls

/-! ## Run-level corollaries -/

theorem run_scanner_symtab_inv (src : List Char) :
    KwInv (run_scanner src).symtab ∧ ClsInv (run_scanner src).symtab ∧
    (∀ p ∈ sym_pairs (run_scanner src).symtab, p.2 = TokType.ID →
      (TokType.ID, p.1) ∈ all_toks (run_scanner src).lines) ∧
    ((run_scanner src).retractions = [] → ∀ q ∈ all_toks (run_scanner src).lines,
      q.1 = TokType.ID → (q.2, TokType.ID) ∈ sym_pairs (run_scanner src).symtab) := by
  have h := run_scanner_eq src
  have hsym : (init_state src).symbol_table
      = keywords_sorted.map (fun kw => ⟨kw, TokType.KEYWORD, none⟩) := rfl
  refine run_fuel_symtab _ _ _ _ _ h rfl (by simp) ?_ ?_ ?_ ?_
  · unfold KwInv
    rw [hsym]
    decide
  · unfold ClsInv
    rw [hsym]
    decide
  · rw [hsym]
    decide
  · intro _ q hq
    simp [all_toks] at hq

/-- The lexemes of an emitted-tokens list, through `all_toks`. -/
theorem mem_emitted_iff (r : RunRes) (lex : String) :
    lex ∈ emitted_id_lexemes r ↔ (TokType.ID, lex) ∈ all_toks r.lines := by
  unfold emitted_id_lexemes
  rw [List.mem_filterMap]
  constructor
  · rintro ⟨⟨t1, t2⟩, hq, hf⟩
    dsimp only at hf
    split at hf
    · rename_i ht1
      injection hf with hf
      subst hf
      subst ht1
      exact hq
    · cases hf
  · intro h
    exact ⟨(TokType.ID, lex), h, by simp⟩


/-! ## Claims C3, C2, C9: error messages and the symbol table -/

/-- C3 (counterexample): on the source `*/` the scanner records the message
"Stray closing comment", which is not in the spec's closed message set. -/
theorem C3_counterexample :
    (1, "*/", "Stray closing comment") ∈ (run_scanner (strL "*/")).errors ∧
    "Stray closing comment" ∉ spec_lex_messages := by
  decide

/-- C3 (amended): for every source, the message of every recorded
lexical-error record is a member of the closed set {"Illegal character",
"Malformed number", "Stray closing comment", "Open comment at EOF"}. -/
theorem C3_lex_error_messages (src : List Char) :
    ∀ e ∈ (run_scanner src).errors, e.2.2 ∈ code_lex_messages := by
  intro e he
  have h := run_scanner_eq src
  refine run_fuel_errors _ _ _ _ _ h ?_ e he
  intro e' he'
  simp [init_state] at he'

theorem C3_lex_error_messages_witness :
    "Stray closing comment" ∈ code_lex_messages :=
  C3_lex_error_messages (strL "*/") (1, "*/", "Stray closing comment") (by decide)

/-- C2 (counterexample): on the source `a;a@` the lexeme `a` is emitted as an
ID token and remains in the grouped output, yet it is absent from the final
symbol table (the adjacency protocol removed it). -/
theorem C2_counterexample :
    "a" ∈ emitted_id_lexemes (run_scanner (strL "a;a@")) ∧
    "a" ∉ symtab_lexemes (run_scanner (strL "a;a@")) := by
  decide

/-- C2 (amended): for every source, every non-keyword lexeme of the final
symbol table was emitted as an ID token that remains in the grouped output;
and when the run performs no retraction, the symbol-table lexemes are exactly
the keywords together with the emitted ID lexemes. -/
theorem C2_symtab_lexemes :
    (∀ (src : List Char) (lex : String), lex ∈ symtab_lexemes (run_scanner src) →
      lex ∈ KEYWORDS ∨ lex ∈ emitted_id_lexemes (run_scanner src)) ∧
    (∀ (src : List Char), (run_scanner src).retractions = [] → ∀ (lex : String),
      lex ∈ symtab_lexemes (run_scanner src) ↔
        lex ∈ KEYWORDS ∨ lex ∈ emitted_id_lexemes (run_scanner src)) := by
  have h1 : ∀ (src : List Char) (lex : String), lex ∈ symtab_lexemes (run_scanner src) →
      lex ∈ KEYWORDS ∨ lex ∈ emitted_id_lexemes (run_scanner src) := by
    intro src lex hmem
    obtain ⟨hkw, hcls, hA, hB⟩ := run_scanner_symtab_inv src
    unfold symtab_lexemes at hmem
    rw [List.mem_map] at hmem
    obtain ⟨e, he, hel⟩ := hmem
    rcases (hcls e he).2 with hk | hid
    · left
      rw [← hel]
      exact (hcls e he).1 hk
    · right
      have hp : (e.lexeme, e.cls) ∈ sym_pairs (run_scanner src).symtab :=
        List.mem_map_of_mem _ he
      have hid' := hA (e.lexeme, e.cls) hp hid
      rw [mem_emitted_iff, ← hel]
      exact hid'
  refine ⟨h1, ?_⟩
  intro src hretr lex
  refine ⟨h1 src lex, ?_⟩
  obtain ⟨hkw, hcls, hA, hB⟩ := run_scanner_symtab_inv src
  rintro (hk | hemit)
  · have hl := hkw lex hk
    unfold lookup_sym at hl
    have hm := List.mem_of_find?_eq_some hl
    unfold symtab_lexemes
    rw [List.mem_map]
    exact ⟨_, hm, rfl⟩
  · rw [mem_emitted_iff] at hemit
    have hp := hB hretr (TokType.ID, lex) hemit rfl
    unfold sym_pairs at hp
    rw [List.mem_map] at hp
    obtain ⟨e, he, hpe⟩ := hp
    unfold symtab_lexemes
    rw [List.mem_map]
    exact ⟨e, he, congrArg Prod.fst hpe⟩

theorem C2_symtab_lexemes_witness :
    (run_scanner (strL "int x; x = 2 + 3;")).retractions = [] ∧
    "x" ∈ symtab_lexemes (run_scanner (strL "int x; x = 2 + 3;")) :=
  ⟨by decide, (C2_symtab_lexemes.2 (strL "int x; x = 2 + 3;") (by decide) "x").mpr
    (Or.inr (by decide))⟩

/-- C9: for every source the final symbol table maps every keyword to an
entry with class `KEYWORD` and no first-seen line; `add_symbol` never
overwrites an entry whose class is `KEYWORD`, and
`remove_id_from_symbol_table_if_present` never deletes one. -/
theorem C9_keyword_entries :
    (∀ (src : List Char), ∀ kw ∈ KEYWORDS,
      lookup_sym (run_scanner src).symtab kw = some ⟨kw, TokType.KEYWORD, none⟩) ∧
    (∀ (s : ScanState) (lex : String) (cls : TokType) (fs : Option Nat) (kw : String)
      (e : SymEntry), lookup_sym s.symbol_table kw = some e → e.cls = TokType.KEYWORD →
      lookup_sym (add_symbol s lex cls fs).symbol_table kw = some e) ∧
    (∀ (s : ScanState) (lex kw : String) (e : SymEntry),
      lookup_sym s.symbol_table kw = some e → e.cls = TokType.KEYWORD →
      lookup_sym (remove_id_from_symbol_table_if_present s lex).symbol_table kw = some e) := by
  refine ⟨?_, add_symbol_keyword_preserve, remove_id_keyword_preserve⟩
  intro src kw hkw
  exact (run_scanner_symtab_inv src).1 kw hkw

theorem C9_keyword_entries_witness :
    lookup_sym (run_scanner (strL "int if0 = 3;")).symtab "if"
      = some ⟨"if", TokType.KEYWORD, none⟩ :=
  C9_keyword_entries.1 (strL "int if0 = 3;") "if" (by decide)

/-! ## Claims C7, C8, C5: termination, token kinds, malformed numbers -/

theorem scanCalls_eof_state (src : List Char) (n : Nat)
    (h : (scanCalls src n).1.ttype = TokType.EOF) :
    (scanCalls src n).2.src.length ≤ (scanCalls src n).2.pos ∧
    (scanCalls src n).1.line = (scanCalls src n).2.lineno := by
  cases n with
  | zero => exact (get_next_token_spec (init_state src)).2.2.2.1 h
  | succ n => exact (get_next_token_spec (scanCalls src n).2).2.2.2.1 h

theorem scanCalls_stationary (src : List Char) (n : Nat)
    (h : (scanCalls src n).1.ttype = TokType.EOF) :
    ∀ k, (scanCalls src (n + k)).1.ttype = TokType.EOF ∧
      (scanCalls src (n + k)).1.line = (scanCalls src n).1.line := by
  have key : ∀ k, (scanCalls src (n + k)).1.ttype = TokType.EOF ∧
      (scanCalls src (n + k)).2.src.length ≤ (scanCalls src (n + k)).2.pos ∧
      (scanCalls src (n + k)).1.line = (scanCalls src n).1.line ∧
      (scanCalls src (n + k)).2.lineno = (scanCalls src n).2.lineno := by
    intro k
    induction k with
    | zero => exact ⟨h, (scanCalls_eof_state src n h).1, rfl, rfl⟩
    | succ k ih =>
      obtain ⟨ht, hp, hl, hln⟩ := ih
      have heq : scanCalls src (n + (k + 1)) = get_next_token (scanCalls src (n + k)).2 := rfl
      have hend := get_next_token_at_end (scanCalls src (n + k)).2 hp
      rw [heq, hend]
      refine ⟨rfl, hp, ?_, hln⟩
      exact hln.trans (scanCalls_eof_state src n h).2.symm
  intro k
  exact ⟨(key k).1, (key k).2.2.1⟩

theorem scanCalls_eof_exists (src : List Char) :
    ∃ n, (scanCalls src n).1.ttype = TokType.EOF := by
  have key : ∀ (d n : Nat),
      (scanCalls src n).2.src.length - (scanCalls src n).2.pos ≤ d →
      ∃ m, (scanCalls src m).1.ttype = TokType.EOF := by
    intro d
    induction d with
    | zero =>
      intro n hn
      have heq : scanCalls src (n + 1) = get_next_token (scanCalls src n).2 := rfl
      have hend := get_next_token_at_end (scanCalls src n).2 (by omega)
      exact ⟨n + 1, by rw [heq, hend]⟩
    | succ d ih =>
      intro n hn
      by_cases he : (scanCalls src (n + 1)).1.ttype = TokType.EOF
      · exact ⟨n + 1, he⟩
      · have heq : scanCalls src (n + 1) = get_next_token (scanCalls src n).2 := rfl
        have hspec := get_next_token_spec (scanCalls src n).2
        have hlt : (scanCalls src n).2.pos < (scanCalls src (n + 1)).2.pos := by
          rw [heq]
          exact hspec.2.2.1 (by rw [← heq]; exact he)
        have hsrc : (scanCalls src (n + 1)).2.src = (scanCalls src n).2.src := by
          rw [heq]
          exact hspec.1
        apply ih (n + 1)
        rw [hsrc]
        omega
  exact key (scanCalls src 0).2.src.length 0 (by omega)

/-- C7: for every source, repeated calls of `get_next_token` eventually
return an EOF token, and from the first EOF on every later call returns EOF
again with the same line number. -/
theorem C7_eof_stationary (src : List Char) :
    (∃ n, (scanCalls src n).1.ttype = TokType.EOF) ∧
    ∀ n, (scanCalls src n).1.ttype = TokType.EOF →
      ∀ m, n ≤ m → (scanCalls src m).1.ttype = TokType.EOF ∧
        (scanCalls src m).1.line = (scanCalls src n).1.line := by
  refine ⟨scanCalls_eof_exists src, ?_⟩
  intro n h m hm
  obtain ⟨k, rfl⟩ : ∃ k, m = n + k := ⟨m - n, by omega⟩
  exact scanCalls_stationary src n h k

theorem C7_eof_stationary_witness :
    (scanCalls (strL "x") 1).1.ttype = TokType.EOF ∧
    (scanCalls (strL "x") 1).1.line = (scanCalls (strL "x") 1).1.line ∧
    (scanCalls (strL "x") 2).1.ttype = TokType.EOF ∧
    (scanCalls (strL "x") 2).1.line = (scanCalls (strL "x") 1).1.line := by
  have h1 := (C7_eof_stationary (strL "x")).2 1 (by decide) 1 (by decide)
  have h2 := (C7_eof_stationary (strL "x")).2 1 (by decide) 2 (by decide)
  exact ⟨h1.1, h1.2, h2.1, h2.2⟩

theorem tok_kind_mem (t : TokType) (h : t ≠ TokType.ERROR) :
    t ∈ [TokType.KEYWORD, TokType.ID, TokType.NUM, TokType.SYMBOL, TokType.EOF] := by
  cases t <;> first | decide | exact absurd rfl h

/-- C8: every token the primary scanner returns has a kind among KEYWORD, ID,
NUM, SYMBOL and EOF (never ERROR), while the parser-side `scan` of
`compiler.py` does emit an ERROR token for an unknown character such as `@`. -/
theorem C8_token_kinds :
    (∀ (src : List Char) (n : Nat), (scanCalls src n).1.ttype ∈
      [TokType.KEYWORD, TokType.ID, TokType.NUM, TokType.SYMBOL, TokType.EOF]) ∧
    (⟨TokType.ERROR, "@", 1, 1⟩ : PToken) ∈ scan (strL "@") := by
  constructor
  · intro src n
    apply tok_kind_mem
    cases n with
    | zero => exact (get_next_token_spec (init_state src)).2.2.2.2.1
    | succ n => exact (get_next_token_spec (scanCalls src n).2).2.2.2.2.1
  · decide

/-- C5: on `int a; a = 007; b = 12abc;` the scanner records exactly the two
"Malformed number" errors with thrown texts `007` and `12abc` on line 1, and
the good tokens before and after each malformed number are still emitted. -/
theorem C5_malformed_numbers :
    (run_scanner (strL "int a; a = 007; b = 12abc;")).errors =
      [(1, "007", "Malformed number"), (1, "12abc", "Malformed number")] ∧
    (run_scanner (strL "int a; a = 007; b = 12abc;")).lines =
      [(1, [(TokType.KEYWORD, "int"), (TokType.ID, "a"), (TokType.SYMBOL, ";"),
            (TokType.ID, "a"), (TokType.SYMBOL, "="), (TokType.SYMBOL, ";"),
            (TokType.ID, "b"), (TokType.SYMBOL, "="), (TokType.SYMBOL, ";")])] := by
  decide

/-! ## Parser-side lemmas -/

theorem POk_refl (ps : PState) : POk ps ps := ⟨rfl, id⟩

theorem cur_eof_of_ge (ps : PState) (h : ¬ ps.i < ps.tokens.length) :
    (cur ps).ttype = TokType.EOF := by
  unfold cur
  rw [List.getD_eq_default _ _ (by omega)]

theorem PInv_padvance (ps : PState) (h : PInv ps) : PInv (padvance ps) := by
  obtain ⟨hlt, j, hj, hje⟩ := h
  unfold padvance
  split
  · exact ⟨hlt, j, hj, hje⟩
  · rename_i hne
    have hjlen : j < ps.tokens.length := by
      cases hg : ps.tokens.get? j with
      | none => rw [hg] at hje; cases hje
      | some t => exact (List.get?_eq_some.mp hg).1
    have hij : ps.i ≠ j := by
      intro hcontra
      apply hne
      subst hcontra
      cases hg : ps.tokens.get? ps.i with
      | none => rw [hg] at hje; cases hje
      | some t =>
        rw [hg] at hje
        have hje2 : t.ttype = TokType.EOF := by simpa using hje
        unfold cur
        rw [List.getD_eq_get?, hg]
        simpa using hje2
    constructor
    · show ps.i + 1 < ps.tokens.length
      omega
    · exact ⟨j, by show ps.i + 1 ≤ j; omega, hje⟩

theorem POk_padvance_of (a b : PState) (h : POk a b) : POk a (padvance b) := by
  obtain ⟨ht, hi⟩ := h
  refine ⟨?_, fun hv => PInv_padvance b (hi hv)⟩
  unfold padvance
  split <;> simp [ht]

theorem POk_perror_of (a b : PState) (msg : String) (h : POk a b) : POk a (perror b msg) := by
  obtain ⟨ht, hi⟩ := h
  unfold perror
  have h2 : POk a { b with errors := b.errors ++ [msg] } := by
    refine ⟨ht, fun hv => ?_⟩
    obtain ⟨hlt, j, hj, hje⟩ := hi hv
    exact ⟨hlt, j, hj, hje⟩
  exact POk_padvance_of _ _ h2

set_option maxHeartbeats 2000000 in
theorem parseNT_POk (fuel : Nat) (nt : NT) (ps : PState) : POk ps (parseNT fuel nt ps).2 := by
  induction fuel generalizing nt ps with
  | zero => exact POk_refl ps
  | succ fuel ih =>
    have hstep : ∀ (a : PState) (nt2 : NT) (b : PState), POk a b →
        POk a (parseNT fuel nt2 b).2 := by
      intro a nt2 b hab
      obtain ⟨ht, hi⟩ := hab
      obtain ⟨ht2, hi2⟩ := ih nt2 b
      exact ⟨ht2.trans ht, fun hv => hi2 (hi hv)⟩
    cases nt <;>
      (dsimp only [parseNT]
       repeat' split
       all_goals (repeat (first
         | apply POk_padvance_of
         | apply POk_perror_of
         | apply hstep))
       all_goals exact POk_refl _)

theorem takeWhile_drop_len_pos (src : List Char) (i : Nat) (c : Char) (p : Char → Bool)
    (hc : src.get? i = some c) (hp : p c = true) :
    1 ≤ ((src.drop i).takeWhile p).length := by
  have hlen : i < src.length := (List.get?_eq_some.mp hc).1
  have hdrop : src.drop i = c :: src.drop (i + 1) := by
    rw [List.drop_eq_get_cons hlen]
    obtain ⟨h, hg⟩ := List.get?_eq_some.mp hc
    rw [hg]
  rw [hdrop, List.takeWhile_cons, hp]
  simp

theorem mapIsSome {α β : Type} (f : α → β) (x : Option α) : (x.map f).isSome = x.isSome := by
  cases x <;> rfl

theorem scan_fuel_isSome (fuel : Nat) (src : List Char) (i line col : Nat)
    (h : src.length - i < fuel) : (scan_fuel fuel src i line col).isSome := by
  induction fuel generalizing i line col with
  | zero => omega
  | succ fuel ih =>
    rw [scan_fuel]
    split
    · simp
    · rename_i ch hch
      have hi : i < src.length := (List.get?_eq_some.mp hch).1
      dsimp only
      split
      · split
        · exact ih _ _ _ (by omega)
        · exact ih _ _ _ (by omega)
      · split
        · split
          · exact ih _ _ _ (by omega)
          · exact ih _ _ _ (by omega)
        · split
          · rename_i hdig
            rw [mapIsSome]
            have hd := takeWhile_drop_len_pos src i ch isDigitC hch hdig
            exact ih _ _ _ (by omega)
          · split
            · rename_i hal
              rw [mapIsSome]
              have hd := takeWhile_drop_len_pos src i ch isIdentChar hch
                (isIdentChar_of_start ch hal)
              exact ih _ _ _ (by omega)
            · split
              · rw [mapIsSome]
                exact ih _ _ _ (by omega)
              · split
                · rw [mapIsSome]
                  exact ih _ _ _ (by omega)
                · rw [mapIsSome]
                  exact ih _ _ _ (by omega)

theorem scan_fuel_shape (fuel : Nat) (src : List Char) (i line col : Nat) (res : List PToken)
    (h : scan_fuel fuel src i line col = some res) :
    ∃ l t, res = l ++ [t] ∧ t.ttype = TokType.EOF ∧ ∀ t2 ∈ l, t2.ttype ≠ TokType.EOF := by
  induction fuel generalizing i line col res with
  | zero => rw [scan_fuel] at h; cases h
  | succ fuel ih =>
    rw [scan_fuel] at h
    split at h
    · injection h with h
      subst h
      exact ⟨[], ⟨TokType.EOF, "$", line, col⟩, rfl, rfl, by simp⟩
    · rename_i ch hch
      dsimp only at h
      split at h
      · split at h
        · exact ih _ _ _ _ h
        · exact ih _ _ _ _ h
      · split at h
        · split at h
          · exact ih _ _ _ _ h
          · exact ih _ _ _ _ h
        · split at h
          · rw [Option.map_eq_some'] at h
            obtain ⟨res', hres', rfl⟩ := h
            obtain ⟨l, t, rfl, ht, hl⟩ := ih _ _ _ _ hres'
            refine ⟨_ :: l, t, rfl, ht, ?_⟩
            intro t2 ht2
            rcases List.mem_cons.mp ht2 with rfl | h2
            · show TokType.NUM ≠ TokType.EOF
              decide
            · exact hl t2 h2
          · split at h
            · rw [Option.map_eq_some'] at h
              obtain ⟨res', hres', rfl⟩ := h
              obtain ⟨l, t, rfl, ht, hl⟩ := ih _ _ _ _ hres'
              refine ⟨_ :: l, t, rfl, ht, ?_⟩
              intro t2 ht2
              rcases List.mem_cons.mp ht2 with rfl | h2
              · show (if String.mk ((src.drop i).takeWhile isIdentChar) ∈ KEYWORDS
                    then TokType.KEYWORD else TokType.ID) ≠ TokType.EOF
                split <;> decide
              · exact hl t2 h2
            · split at h
              · rw [Option.map_eq_some'] at h
                obtain ⟨res', hres', rfl⟩ := h
                obtain ⟨l, t, rfl, ht, hl⟩ := ih _ _ _ _ hres'
                refine ⟨_ :: l, t, rfl, ht, ?_⟩
                intro t2 ht2
                rcases List.mem_cons.mp ht2 with rfl | h2
                · show TokType.SYMBOL ≠ TokType.EOF
                  decide
                · exact hl t2 h2
              · split at h
                · rw [Option.map_eq_some'] at h
                  obtain ⟨res', hres', rfl⟩ := h
                  obtain ⟨l, t, rfl, ht, hl⟩ := ih _ _ _ _ hres'
                  refine ⟨_ :: l, t, rfl, ht, ?_⟩
                  intro t2 ht2
                  rcases List.mem_cons.mp ht2 with rfl | h2
                  · show TokType.SYMBOL ≠ TokType.EOF
                    decide
                  · exact hl t2 h2
                · rw [Option.map_eq_some'] at h
                  obtain ⟨res', hres', rfl⟩ := h
                  obtain ⟨l, t, rfl, ht, hl⟩ := ih _ _ _ _ hres'
                  refine ⟨_ :: l, t, rfl, ht, ?_⟩
                  intro t2 ht2
                  rcases List.mem_cons.mp ht2 with rfl | h2
                  · show TokType.ERROR ≠ TokType.EOF
                    decide
                  · exact hl t2 h2

theorem scan_eq_fuel (src : List Char) :
    scan_fuel (src.length + 1) src 0 1 1 = some (scan src) := by
  have hs := scan_fuel_isSome (src.length + 1) src 0 1 1 (by omega)
  unfold scan
  cases hx : scan_fuel (src.length + 1) src 0 1 1 with
  | none => rw [hx] at hs; cases hs
  | some r => simp [hx]

theorem scan_shape (src : List Char) :
    ∃ l t, scan src = l ++ [t] ∧ t.ttype = TokType.EOF ∧
      ∀ t2 ∈ l, t2.ttype ≠ TokType.EOF :=
  scan_fuel_shape _ _ _ _ _ _ (scan_eq_fuel src)

theorem PInv_init (src : List Char) : PInv ⟨scan src, 0, []⟩ := by
  obtain ⟨l, t, happ, ht, hl⟩ := scan_shape src
  constructor
  · show 0 < (scan src).length
    rw [happ]
    simp
  · refine ⟨l.length, by show (0 : Nat) ≤ l.length; omega, ?_⟩
    show ((scan src).get? l.length).map PToken.ttype = some TokType.EOF
    rw [happ, List.get?_concat_length]
    simp [ht]

/-! ## Claim C10: the parser stays in bounds -/

/-- C10: `scan` always produces a list ending in exactly one EOF token; the
cursor invariant (in bounds, EOF at or after the cursor) holds initially, is
preserved by `advance`, by `error`'s panic skip and by every grammar
procedure at every call depth, and it makes `cur()` an in-bounds access. -/
theorem C10_parser_bounds :
    (∀ (src : List Char), ∃ l t, scan src = l ++ [t] ∧ t.ttype = TokType.EOF ∧
      ∀ t2 ∈ l, t2.ttype ≠ TokType.EOF) ∧
    (∀ (src : List Char), PInv ⟨scan src, 0, []⟩) ∧
    (∀ (ps : PState), PInv ps → PInv (padvance ps)) ∧
    (∀ (ps : PState) (msg : String), PInv ps → PInv (perror ps msg)) ∧
    (∀ (fuel : Nat) (nt : NT) (ps : PState), PInv ps → PInv (parseNT fuel nt ps).2) ∧
    (∀ (ps : PState), PInv ps → ps.i < ps.tokens.length) := by
  refine ⟨scan_shape, PInv_init, PInv_padvance, ?_, ?_, fun ps h => h.1⟩
  · intro ps msg h
    exact (POk_perror_of ps ps msg (POk_refl ps)).2 h
  · intro fuel nt ps h
    exact (parseNT_POk fuel nt ps).2 h

theorem C10_parser_bounds_witness :
    PInv (parseNT parseFuel NT.program ⟨scan (strL "int a;"), 0, []⟩).2 :=
  C10_parser_bounds.2.2.2.2.1 parseFuel NT.program ⟨scan (strL "int a;"), 0, []⟩
    (C10_parser_bounds.2.1 (strL "int a;"))

/-! ## Claim C4: the shape of the Declaration-list -/

theorem DLChain_shape (n : Node) (h : DLChain n) :
    n.children.map Node.label = ["epsilon"] ∨ ∃ d tail, n.children = [d, tail] := by
  cases h with
  | eps => left; rfl
  | step d tail hd htl hch => right; exact ⟨d, tail, rfl⟩

/-- C4 (counterexample): the parse of `void main(void) { int a; a = 0;
return; }` succeeds without syntax errors, but its `Declaration-list` node is
not realised recursively: it has a single `Declaration` child and no nested
`Declaration-list`/`epsilon` spine. -/
theorem C4_counterexample :
    (parseRun (strL "void main(void) \x7b int a; a = 0; return; \x7d")).2.errors = [] ∧
    ¬ DLChain
      (childAt (parseRun (strL "void main(void) \x7b int a; a = 0; return; \x7d")).1 0) := by
  constructor
  · decide
  · intro hch
    rcases DLChain_shape _ hch with h1 | ⟨d, tail, h2⟩
    · exact absurd h1 (by decide)
    · have hlen : (childAt
          (parseRun (strL "void main(void) \x7b int a; a = 0; return; \x7d")).1 0).children.length
          = 1 := by decide
      rw [h2] at hlen
      simp at hlen

/-- C4 (amended): parsing `void main(void) { int a; a = 0; return; }` yields
no syntax errors; the root is `Program` with a single `Declaration-list`
child; that node holds its declarations as a flat list of `Declaration`
children (here exactly one), and an `epsilon` leaf stands in its place only
when the declaration list is empty, as for the empty source. -/
theorem C4_parse_tree :
    (parseRun (strL "void main(void) \x7b int a; a = 0; return; \x7d")).2.errors = [] ∧
    (parseRun (strL "void main(void) \x7b int a; a = 0; return; \x7d")).1.label = "Program" ∧
    (parseRun (strL "void main(void) \x7b int a; a = 0; return; \x7d")).1.children.map Node.label
      = ["Declaration-list"] ∧
    (childAt (parseRun (strL "void main(void) \x7b int a; a = 0; return; \x7d")).1 0).children.map
      Node.label = ["Declaration"] ∧
    (parseRun (strL "")).1.children.map Node.label = ["Declaration-list"] ∧
    (childAt (parseRun (strL "")).1 0).children.map Node.label = ["epsilon"] := by
  decide

/-! ## Claim C6: syntax-error formats -/

theorem padvance_errors (ps : PState) : (padvance ps).errors = ps.errors := by
  unfold padvance
  split <;> rfl

theorem perror_errors (ps : PState) (msg : String) :
    (perror ps msg).errors = ps.errors ++ [msg] := by
  unfold perror
  rw [padvance_errors]

theorem string_data_append (a b : String) : (a ++ b).data = a.data ++ b.data := rfl

/-- A message of the claimed syntax-error format contains " col ". -/
theorem SyntaxErrFormat_col (msg : String) (h : SyntaxErrFormat msg) :
    " col ".data <:+: msg.data := by
  obtain ⟨x, lex, L, C, rfl⟩ := h
  exact ⟨("Expected " ++ x ++ " but found '" ++ lex ++ "' at line " ++ Nat.repr L).data,
    (Nat.repr C).data, by simp [string_data_append, List.append_assoc]⟩

/-- C6 (counterexample): on `int a` the parser records the fixed message
"Expected ; or [ in Var-declaration-prime", which carries no line or column
and is not of the claimed positional format. -/
theorem C6_counterexample :
    (parseRun (strL "int a")).2.errors = ["Expected ; or [ in Var-declaration-prime"] ∧
    ¬ SyntaxErrFormat "Expected ; or [ in Var-declaration-prime" := by
  constructor
  · decide
  · intro h
    exact absurd (SyntaxErrFormat_col _ h) (by decide)

/-- C6 (amended): `Parser.match` produces positional messages — on a lexeme
mismatch exactly the claimed "Expected X but found '<lex>' at line L col C"
form, on a type mismatch a message that likewise embeds the line and column —
but the grammar procedures record their own free-form messages at the site of
detection, some without any position, e.g. the fixed Var-declaration-prime
message recorded when parsing `int a`. -/
theorem C6_error_format :
    (∀ (ps : PState) (el : String), (cur ps).lexeme ≠ el →
      (matchTok ps none (some el)).2.errors = ps.errors ++
        ["Expected '" ++ el ++ "' but found '" ++ (cur ps).lexeme ++ "' at line "
          ++ Nat.repr (cur ps).line ++ " col " ++ Nat.repr (cur ps).col] ∧
      SyntaxErrFormat ("Expected '" ++ el ++ "' but found '" ++ (cur ps).lexeme ++ "' at line "
          ++ Nat.repr (cur ps).line ++ " col " ++ Nat.repr (cur ps).col)) ∧
    (∀ (ps : PState) (et : TokType), (cur ps).ttype ≠ et →
      (matchTok ps (some et) none).2.errors = ps.errors ++
        ["Expected token type " ++ ttypeStr et ++ " but found " ++ ttypeStr (cur ps).ttype
          ++ " ('" ++ (cur ps).lexeme ++ "') at line " ++ Nat.repr (cur ps).line
          ++ " col " ++ Nat.repr (cur ps).col]) ∧
    (parseRun (strL "int a")).2.errors = ["Expected ; or [ in Var-declaration-prime"] := by
  refine ⟨?_, ?_, by decide⟩
  · intro ps el hne
    constructor
    · unfold matchTok
      dsimp only
      rw [if_pos hne, perror_errors]
    · refine ⟨"'" ++ el ++ "'", (cur ps).lexeme, (cur ps).line, (cur ps).col, ?_⟩
      apply String.ext
      have hlit1 : "Expected '".data = "Expected ".data ++ "'".data := rfl
      have hlit2 : "' but found '".data = "'".data ++ " but found '".data := rfl
      simp only [string_data_append, hlit1, hlit2, List.append_assoc, List.cons_append,
        List.nil_append]
  · intro ps et hne
    unfold matchTok
    dsimp only
    rw [if_pos hne, perror_errors]

theorem C6_error_format_witness :
    (matchTok ⟨[⟨TokType.ID, "x", 3, 7⟩], 0, []⟩ none (some ";")).2.errors =
      ([] : List String) ++ ["Expected '" ++ ";" ++ "' but found '"
        ++ (cur ⟨[⟨TokType.ID, "x", 3, 7⟩], 0, []⟩).lexeme ++ "' at line "
        ++ Nat.repr (cur ⟨[⟨TokType.ID, "x", 3, 7⟩], 0, []⟩).line ++ " col "
        ++ Nat.repr (cur ⟨[⟨TokType.ID, "x", 3, 7⟩], 0, []⟩).col] :=
  (C6_error_format.1 ⟨[⟨TokType.ID, "x", 3, 7⟩], 0, []⟩ ";" (by decide)).1

/-! ## Claim C1: the illegal-character adjacency protocol -/

theorem string_append_assoc (a b c : String) : a ++ b ++ c = a ++ (b ++ c) := by
  apply String.ext
  simp [string_data_append, List.append_assoc]

theorem step_illegal_of_not_start (s : ScanState) (c : Char)
    (hstart : is_token_start c = false) : step s c = illegal_step s c := by
  unfold step
  split_ifs with h1 h2 h3 h4 h5 h6 h7
  · rw [h1.1] at hstart
    exact absurd hstart (by decide)
  · rw [is_token_start] at hstart
    rw [h2] at hstart
    simp at hstart
  · rw [h3] at hstart
    exact absurd hstart (by decide)
  · simp only [Bool.or_eq_true, decide_eq_true_eq] at h4
    rcases h4 with h4 | h4
    · rw [is_token_start] at hstart
      rw [h4] at hstart
      simp at hstart
    · rw [h4] at hstart
      exact absurd hstart (by decide)
  · rw [is_token_start] at hstart
    rw [h5] at hstart
    simp at hstart
  · rw [h6] at hstart
    exact absurd hstart (by decide)
  · rw [is_token_start] at hstart
    rw [h7] at hstart
    simp at hstart
  · rfl

theorem get_next_token_of_again (s : ScanState) (c : Char) (s' : ScanState)
    (hc : s.src.get? s.pos = some c) (hs : step s c = .again s') :
    get_next_token s = get_next_token s' := by
  have hsrc : s'.src = s.src := by
    have h := step_st_src s c
    rw [hs] at h
    exact h
  have hpos : s.pos < s'.pos := by
    have h := step_st_pos s c hc
    rw [hs] at h
    exact h
  have hlen : s.pos < s.src.length := pos_lt_of_get s c hc
  have h1 : get_next_token_fuel (s.src.length - s.pos + 1) s
      = get_next_token_fuel (s.src.length - s.pos) s' := by
    rw [get_next_token_fuel, hc]
    dsimp only
    rw [hs]
  have h3 : get_next_token_fuel (s.src.length - s.pos) s' = some (get_next_token s') := by
    apply get_next_token_fuel_mono _ _ _ (get_next_token_eq_fuel s')
    rw [hsrc]
    omega
  have hL : get_next_token s = (get_next_token_fuel (s.src.length - s.pos + 1) s).getD
      (⟨TokType.EOF, "EOF", s.lineno⟩, { s with last_token := none }) := rfl
  rw [h1, h3] at hL
  simpa using hL

theorem remove_first_spec (l : List (TokType × String)) (x : TokType × String) (h : x ∈ l) :
    ∃ l1 l2, l = l1 ++ x :: l2 ∧ x ∉ l1 ∧ remove_first l x = l1 ++ l2 := by
  induction l with
  | nil => cases h
  | cons a rest ih =>
    by_cases ha : a = x
    · subst ha
      refine ⟨[], rest, rfl, by simp, ?_⟩
      rw [remove_first, if_pos rfl]
      rfl
    · have hx : x ∈ rest := by
        rcases List.mem_cons.mp h with h1 | h1
        · exact absurd h1.symm ha
        · exact h1
      obtain ⟨l1, l2, heq, hnot, hrm⟩ := ih hx
      refine ⟨a :: l1, l2, by rw [heq]; rfl, ?_, ?_⟩
      · intro hmem
        rcases List.mem_cons.mp hmem with h1 | h1
        · exact ha h1.symm
        · exact hnot h1
      · rw [remove_first, if_neg ha, hrm]
        rfl

theorem remove_recent_spec (l : List (TokType × String)) (lex : String)
    (h : (TokType.ID, lex) ∈ l) :
    ∃ l1 l2, l = l1 ++ (TokType.ID, lex) :: l2 ∧ (TokType.ID, lex) ∉ l2 ∧
      remove_recent l lex = l1 ++ l2 := by
  have hrev : (TokType.ID, lex) ∈ l.reverse := by simpa using h
  obtain ⟨r1, r2, heq, hnot, hrm⟩ := remove_first_spec l.reverse _ hrev
  refine ⟨r2.reverse, r1.reverse, ?_, by simpa using hnot, ?_⟩
  · have h2 := congrArg List.reverse heq
    simpa [List.reverse_append, List.append_assoc] using h2
  · rw [remove_recent, hrm, List.reverse_append]

theorem illegal_adjacent_step (s : ScanState) (c : Char) (lex : String) (ln : Nat)
    (hc : s.src.get? s.pos = some c)
    (hstart : is_token_start c = false)
    (hlt : s.last_token = some ⟨TokType.ID, lex, s.pos, ln⟩)
    (hleft : String.mk (left_ident_part s.src s.pos) = lex)
    (hne : left_ident_part s.src s.pos ≠ []) :
    ∃ s' ext, step s c = StepRes.again s' ∧
      s'.remove_flag = some (lex, ln) ∧
      (lex, TokType.ID) ∉ sym_pairs s'.symbol_table ∧
      s'.lex_errors = s.lex_errors ++
        [(s.lineno, lex ++ String.mk [c] ++ ext, "Illegal character")] ∧
      get_next_token s = get_next_token s' := by
  have hstep : step s c = illegal_step s c := step_illegal_of_not_start s c hstart
  have hadj : adj_check s.last_token s.pos (left_ident_part s.src s.pos) = some (lex, ln) := by
    rw [hlt]
    unfold adj_check
    dsimp only
    rw [if_pos ⟨rfl, rfl, hne, hleft.symm⟩]
  have hil : illegal_step s c = illegal_log_step
      (remove_id_from_symbol_table_if_present
        { (consume_while isIdentChar s.advance).2 with remove_flag := some (lex, ln) } lex)
      s.lineno
      (String.mk (left_ident_part s.src s.pos ++ c ::
        (consume_while isIdentChar s.advance).1)) := by
    unfold illegal_step
    dsimp only
    rw [hadj]
  obtain ⟨s4, h4⟩ : ∃ s4, illegal_log_step
      (remove_id_from_symbol_table_if_present
        { (consume_while isIdentChar s.advance).2 with remove_flag := some (lex, ln) } lex)
      s.lineno
      (String.mk (left_ident_part s.src s.pos ++ c ::
        (consume_while isIdentChar s.advance).1)) = .again s4 := by
    unfold illegal_log_step
    dsimp only
    exact ⟨_, rfl⟩
  have hagain : step s c = .again s4 := by rw [hstep, hil, h4]
  obtain ⟨ext0, herr⟩ := illegal_log_step_errors
      (remove_id_from_symbol_table_if_present
        { (consume_while isIdentChar s.advance).2 with remove_flag := some (lex, ln) } lex)
      s.lineno
      (String.mk (left_ident_part s.src s.pos ++ c ::
        (consume_while isIdentChar s.advance).1))
  obtain ⟨htab, hflag, hltk⟩ := illegal_log_step_state
      (remove_id_from_symbol_table_if_present
        { (consume_while isIdentChar s.advance).2 with remove_flag := some (lex, ln) } lex)
      s.lineno
      (String.mk (left_ident_part s.src s.pos ++ c ::
        (consume_while isIdentChar s.advance).1))
  rw [h4] at herr htab hflag
  simp only [StepRes.st] at herr htab hflag
  refine ⟨s4, String.mk (consume_while isIdentChar s.advance).1 ++ ext0, hagain, ?_, ?_, ?_,
    get_next_token_of_again s c s4 hc hagain⟩
  · rw [hflag]
    rfl
  · rw [htab]
    exact remove_id_pairs_out _ lex
  · have h8 : (remove_id_from_symbol_table_if_present
        { (consume_while isIdentChar s.advance).2 with remove_flag := some (lex, ln) }
        lex).lex_errors = s.lex_errors := by
      rw [(remove_id_fields _ _).2.2.2.1]
      show (consume_while isIdentChar s.advance).2.lex_errors = s.lex_errors
      rw [consume_while_lex_errors, advance_lex_errors]
    have h9 : String.mk (left_ident_part s.src s.pos ++ c ::
        (consume_while isIdentChar s.advance).1)
        = lex ++ String.mk [c] ++ String.mk (consume_while isIdentChar s.advance).1 := by
      rw [← hleft]
      apply String.ext
      simp [string_data_append, List.append_assoc]
    rw [herr, h8, h9, string_append_assoc (lex ++ String.mk [c])
      (String.mk (consume_while isIdentChar s.advance).1) ext0]

/-- C1 (counterexample): on the source `a;a@` the identifier `a` is
immediately followed by the illegal character `@`; the scanner records the
"Illegal character" error with thrown text `a@` and performs the retraction,
yet an ID token with lexeme `a` still appears in the grouped token output:
only the most recent occurrence was removed, and the earlier `a` of the same
line survives. -/
theorem C1_counterexample :
    (run_scanner (strL "a;a@")).errors = [(1, "a@", "Illegal character")] ∧
    (run_scanner (strL "a;a@")).retractions = [("a", 1)] ∧
    (TokType.ID, "a") ∈ all_toks (run_scanner (strL "a;a@")).lines := by
  decide

/-- C1 (amended): when the scanner meets an illegal character right after an
emitted ID token (the ID ends at the illegal character's position and equals
the identifier-shaped left context), it latches the retraction signal for
that identifier, removes it from the symbol table, records an "Illegal
character" error whose thrown text begins with the identifier followed by the
illegal character, and scanning continues with the same result; processing
the retraction then deletes exactly the most recent occurrence of that ID
token from the line's output.  On `int invalid@x;` this leaves `invalid` in
neither the output nor the symbol table while `int` and `;` are still
emitted; but only the most recent occurrence of the identifier is retracted,
so an earlier token with the same lexeme may survive (see the
counterexample). -/
theorem C1_retroactive_invalidation :
    (∀ (s : ScanState) (c : Char) (lex : String) (ln : Nat),
      s.src.get? s.pos = some c →
      is_token_start c = false →
      s.last_token = some ⟨TokType.ID, lex, s.pos, ln⟩ →
      String.mk (left_ident_part s.src s.pos) = lex →
      left_ident_part s.src s.pos ≠ [] →
      ∃ s' ext, step s c = StepRes.again s' ∧
        s'.remove_flag = some (lex, ln) ∧
        (lex, TokType.ID) ∉ sym_pairs s'.symbol_table ∧
        s'.lex_errors = s.lex_errors ++
          [(s.lineno, lex ++ String.mk [c] ++ ext, "Illegal character")] ∧
        get_next_token s = get_next_token s') ∧
    (∀ (l : List (TokType × String)) (lex : String), (TokType.ID, lex) ∈ l →
      ∃ l1 l2, l = l1 ++ (TokType.ID, lex) :: l2 ∧ (TokType.ID, lex) ∉ l2 ∧
        remove_recent l lex = l1 ++ l2) ∧
    ((run_scanner (strL "int invalid@x;")).errors
        = [(1, "invalid@x", "Illegal character")] ∧
      all_toks (run_scanner (strL "int invalid@x;")).lines
        = [(TokType.KEYWORD, "int"), (TokType.SYMBOL, ";")] ∧
      symtab_lexemes (run_scanner (strL "int invalid@x;")) = keywords_sorted) :=
  ⟨illegal_adjacent_step, remove_recent_spec, by decide⟩

theorem C1_retroactive_invalidation_witness :
    ∃ l1 l2, [(TokType.ID, "a"), (TokType.SYMBOL, ";"), (TokType.ID, "a")]
        = l1 ++ (TokType.ID, "a") :: l2 ∧ (TokType.ID, "a") ∉ l2 ∧
      remove_recent [(TokType.ID, "a"), (TokType.SYMBOL, ";"), (TokType.ID, "a")] "a"
        = l1 ++ l2 :=
  C1_retroactive_invalidation.2.1
    [(TokType.ID, "a"), (TokType.SYMBOL, ";"), (TokType.ID, "a")] "a" (by decide)
